import Mathlib

/-!
Verification of the rosunit JUnit-XML aggregation model
(`src/tools/rosunit/src/rosunit/junitxml.py`).

The Python module is shallowly embedded as follows.

* Python 2 unicode strings handled by the ingestion sanitizer are modelled at
  the code-unit level as `List Nat` (one entry per UTF-16 code unit / code
  point, as in a narrow CPython 2 build); this is needed because the sanitizer
  manipulates unpaired surrogate code units, which Lean `Char` cannot carry.
  All other Python strings are modelled as Lean `String`.
* Python floats (`time` fields) are idealized as exact rationals `ℚ`.  A
  finite IEEE double is a rational with a power-of-two denominator, so every
  actual float value is in the model's range; rounding of `+` is outside the
  model.
* Python ints are modelled as `Int`.
* Exceptions are modelled with `Except PyErr`; a raised exception is
  `Except.error`, and `try/except` blocks are translated to matches on the
  modelled outcome.
* The XML document parser (`xml.dom.minidom.parseString`, a Python standard
  library collaborator, not repository code) is modelled as an oracle
  `parse : List Nat → Option XNode` passed to `read`; `none` models an
  `ExpatError`.  DOM node identity (used by the nested-suite skip check) is
  modelled by the node's path (list of child indices) from the document root,
  which is exact for tree-shaped documents.
-/

/-- Python exception kinds raised by the modelled code paths. -/
inductive PyErr where
  | typeError
  | valueError
deriving DecidableEq, Repr

instance {ε α : Type} [DecidableEq ε] [DecidableEq α] : DecidableEq (Except ε α)
  | .ok a, .ok b =>
    match decEq a b with
    | isTrue h => isTrue (by rw [h])
    | isFalse h => isFalse (by intro hc; cases hc; exact h rfl)
  | .error a, .error b =>
    match decEq a b with
    | isTrue h => isTrue (by rw [h])
    | isFalse h => isFalse (by intro hc; cases hc; exact h rfl)
  | .ok _, .error _ => isFalse (by intro hc; cases hc)
  | .error _, .ok _ => isFalse (by intro hc; cases hc)

/-! ## Ingestion sanitizer (`RE_XML_ILLEGAL`, `_read_file_safe_xml`)

The regex `RE_XML_ILLEGAL` is an alternation of five groups (hex unit ranges):
1. a single code unit in 0000-0008, 000b-000c, 000e-001f, fffe-ffff;
2. a high surrogate (d800-dbff) followed by a non-low-surrogate;
3. a non-high-surrogate followed by a low surrogate (dc00-dfff);
4. a high surrogate at end of input;
5. a low surrogate at start of input.

`re.finditer` scans left to right, trying the alternatives in this order at
each position and resuming after each (non-overlapping) match.  The Python
replacement loop then rewrites the *evolving* string at the *original* match
offsets: `x = x[:match.start()] + "?" + x[match.end():]`. -/

/-- Code units matched by group 1 of `RE_XML_ILLEGAL` (XML-illegal single characters). -/
def illegalSingle (c : Nat) : Bool :=
  c ≤ 0x8 || (0xb ≤ c && c ≤ 0xc) || (0xe ≤ c && c ≤ 0x1f) || (0xfffe ≤ c && c ≤ 0xffff)

/-- High-surrogate code unit (`\ud800-\udbff`). -/
def isHiSurr (c : Nat) : Bool := 0xd800 ≤ c && c ≤ 0xdbff

/-- Low-surrogate code unit (`\udc00-\udfff`). -/
def isLoSurr (c : Nat) : Bool := 0xdc00 ≤ c && c ≤ 0xdfff

/-- Any surrogate code unit. -/
def isSurr (c : Nat) : Bool := isHiSurr c || isLoSurr c

/-! All matches of `RE_XML_ILLEGAL` over the input, as `(start, end)` offset
pairs in the original string, in the order `re.finditer` produces them:
at each position the five alternatives are tried in the regex's order
(group 1 single illegal unit; group 2 high surrogate + non-low; group 3
non-high + low surrogate, which consumes the preceding good unit too;
group 4 high surrogate at end; group 5 low surrogate at input start), and
scanning resumes after the end of each match. -/
mutual

/-- Scanner for `RE_XML_ILLEGAL` (see the comment above). -/
def findMatches : Nat → List Nat → List (Nat × Nat)
  | _, [] => []
  | i, c :: rest =>
    if illegalSingle c then (i, i + 1) :: findMatches (i + 1) rest
    else
      match rest.head? with
      | none =>
        if isHiSurr c then [(i, i + 1)]                  -- group 4
        else if i == 0 && isLoSurr c then [(i, i + 1)]   -- group 5
        else []
      | some d =>
        if isHiSurr c then
          if isLoSurr d then findMatches (i + 1) rest    -- valid pair: no match at i
          else (i, i + 2) :: findMatchesTail (i + 2) rest   -- group 2
        else if isLoSurr d then (i, i + 2) :: findMatchesTail (i + 2) rest  -- group 3
        else if i == 0 && isLoSurr c then (i, i + 1) :: findMatches (i + 1) rest  -- group 5
        else findMatches (i + 1) rest

/-- Resume scanning one unit further on (used after a two-unit match, whose
second unit is the head of the list handed to this function). -/
def findMatchesTail : Nat → List Nat → List (Nat × Nat)
  | _, [] => []
  | i, _ :: rest2 => findMatches i rest2

end

/-- The Python replacement loop: each recorded match `(start, end)` rewrites
the current string as `x[:start] + "?" + x[end:]` (offsets are from the
original string, the text being rewritten is the evolving one). -/
def applyRepl (x : List Nat) (ms : List (Nat × Nat)) : List Nat :=
  ms.foldl (fun acc m => acc.take m.1 ++ 0x3f :: acc.drop m.2) x

/-- Sanitizer core of `_read_file_safe_xml`: run the `RE_XML_ILLEGAL`
replacement loop over the decoded code units. -/
def sanitize (x : List Nat) : List Nat := applyRepl x (findMatches 0 x)

/-- Python ASCII whitespace, as stripped by `str.strip()`. -/
def isPySpaceU (c : Nat) : Bool :=
  c == 0x20 || c == 0x9 || c == 0xa || c == 0xd || c == 0xb || c == 0xc

/-- Model of `x.strip()` on the sanitized content (code-unit level). -/
def stripUnits (l : List Nat) : List Nat :=
  ((l.dropWhile isPySpaceU).reverse.dropWhile isPySpaceU).reverse

/-! ## Serialization-time output sanitizer (`filter_nonprintable_text`)

The Python source writes the negated class with escapes for 0020-D7FF, tab,
LF, CR, E000-FFFD, and then the eleven characters backslash-u-1-0-0-0-0,
hyphen, backslash-u-1-0-F-F-F-F (intending 10000-10FFFF).  A `\u` escape takes
exactly four hex digits, so that last item parses as the literal U+1000, the
range U+0030-U+1000, and the literal digits `0FFFF` — all already inside
U+0020-U+D7FF.  The effective kept class is therefore tab, LF, CR,
U+0020-U+D7FF and U+E000-U+FFFD; surrogate code units (hence every
supplementary-plane character of a narrow build, and every code point above
U+FFFD of a wide build) are NOT kept. -/

/-- Code units kept by `filter_nonprintable_text`'s character class as the
regex actually parses. -/
def printableXml (c : Nat) : Bool :=
  c == 0x9 || c == 0xa || c == 0xd || (0x20 ≤ c && c ≤ 0xd7ff) || (0xe000 ≤ c && c ≤ 0xfffd)

/-- Model of `filter_nonprintable_text`: `re.sub` deletes every maximal run of
non-kept code units, i.e. filters the string to the kept class. -/
def filter_nonprintable_text (s : List Nat) : List Nat := s.filter printableXml


/-! ## Python string helpers -/

/-- ASCII whitespace as recognised by Python `str.strip()`. -/
def isPySpace (c : Char) : Bool :=
  c == ' ' || c == '\t' || c == '\n' || c == '\r' || c.toNat == 0xb || c.toNat == 0xc

/-- Model of Python `.strip()` on a character list. -/
def pyStripL (l : List Char) : List Char :=
  ((l.dropWhile isPySpace).reverse.dropWhile isPySpace).reverse

/-- Model of Python `.strip()` on a string. -/
def pyStrip (s : String) : String := ⟨pyStripL s.data⟩

/-- Model of Python `a or b` for strings: the empty string is falsy. -/
def pyOr (a b : String) : String := if a = "" then b else a

/-- Model of Python `s.startswith(pre)` (kept at the character-list level). -/
def pyStartsWith (s pre : String) : Bool := pre.data.isPrefixOf s.data

/-- Model of Python `s.endswith(suf)` (kept at the character-list level). -/
def pyEndsWith (s suf : String) : Bool := suf.data.isSuffixOf s.data

/-- Model of the Python slice `s[n:]`. -/
def strDrop (s : String) (n : Nat) : String := ⟨s.data.drop n⟩

/-- Model of the Python slice `s[:-n]` (for `n ≤ len(s)`). -/
def strDropRight (s : String) (n : Nat) : String := ⟨s.data.take (s.data.length - n)⟩

/-- ASCII decimal digit (what `int()`/`float()` accept as digits). -/
def isDigitCh (c : Char) : Bool := 48 ≤ c.toNat && c.toNat ≤ 57

/-- Numeric value of a (most-significant-first) list of decimal digits. -/
def digitsVal (l : List Char) : Nat :=
  l.foldl (fun a c => a * 10 + (c.toNat - 48)) 0

/-- Decimal digits of `n`, most significant first (fuel-based so that it
reduces definitionally; the fuel `n + 1` always suffices). -/
def natDigitsAux : Nat → Nat → List Char
  | 0, _ => []
  | fuel + 1, n =>
    if n < 10 then [Char.ofNat (48 + n)]
    else natDigitsAux fuel (n / 10) ++ [Char.ofNat (48 + n % 10)]

/-- Decimal digits of `n`, most significant first. -/
def natDigits (n : Nat) : List Char := natDigitsAux (n + 1) n

/-- Model of Python `str()` on an int. -/
def intStr (n : Int) : String :=
  ⟨(if n < 0 then ['-'] else []) ++ natDigits n.natAbs⟩

/-- Left-pad a digit list with zeros to length `k`. -/
def padZeros (k : Nat) (l : List Char) : List Char :=
  List.replicate (k - l.length) '0' ++ l

/-- Model of Python 2 `string.atoi` (that is, `int(s, 10)`): optional
surrounding whitespace, an optional sign, then one or more decimal digits;
anything else raises `ValueError`. -/
def atoi (s : String) : Except PyErr Int :=
  match pyStripL s.data with
  | [] => .error .valueError
  | c :: r =>
    if c = '-' then
      if r ≠ [] ∧ r.all isDigitCh then .ok (-(digitsVal r : Int)) else .error .valueError
    else if c = '+' then
      if r ≠ [] ∧ r.all isDigitCh then .ok (digitsVal r) else .error .valueError
    else
      if (c :: r).all isDigitCh then .ok (digitsVal (c :: r)) else .error .valueError

/-- Exponent suffix of a Python float literal: empty, or `e`/`E`, an optional
sign, and one or more digits, scaling the mantissa by the power of ten. -/
def parseExpPart (base : ℚ) : List Char → Option ℚ
  | [] => some base
  | e :: r =>
    if e == 'e' || e == 'E' then
      match r with
      | '-' :: r2 =>
        if r2 ≠ [] ∧ r2.all isDigitCh then some (base * (10 : ℚ) ^ (-(digitsVal r2 : Int))) else none
      | '+' :: r2 =>
        if r2 ≠ [] ∧ r2.all isDigitCh then some (base * (10 : ℚ) ^ (digitsVal r2 : Int)) else none
      | r2 =>
        if r2 ≠ [] ∧ r2.all isDigitCh then some (base * (10 : ℚ) ^ (digitsVal r2 : Int)) else none
    else none

/-- Unsigned part of a Python float literal: `digits [. digits] [exp]`,
`digits . [exp]` or `. digits [exp]`. -/
def parseFloatCore (l : List Char) : Option ℚ :=
  let ip := l.takeWhile isDigitCh
  let r1 := l.dropWhile isDigitCh
  match r1 with
  | '.' :: r2 =>
    let fp := r2.takeWhile isDigitCh
    let r3 := r2.dropWhile isDigitCh
    if ip = [] ∧ fp = [] then none
    else parseExpPart ((digitsVal ip : ℚ) + (digitsVal fp : ℚ) / (10 : ℚ) ^ fp.length) r3
  | _ =>
    if ip = [] then none else parseExpPart (digitsVal ip : ℚ) r1

/-- Model of Python `float(s)` on the decimal literal forms (`inf`/`nan`
spellings, which `str()` of a finite float never produces, are outside the
model): optional surrounding whitespace, optional sign, mantissa, optional
exponent; anything else raises `ValueError` (modelled as `none`). -/
def parseFloat (s : String) : Option ℚ :=
  match pyStripL s.data with
  | [] => none
  | c :: r =>
    if c = '-' then (parseFloatCore r).map (fun q => -q)
    else if c = '+' then parseFloatCore r
    else parseFloatCore (c :: r)

/-- Count and remove the factors `p` of `n` (fuel-based; fuel `n` suffices
since `p ≥ 2` halves `n` at least each step). -/
def stripFacAux (p : Nat) : Nat → Nat → Nat × Nat
  | 0, n => (0, n)
  | fuel + 1, n =>
    if 2 ≤ p ∧ n ≠ 0 ∧ n % p = 0 then
      let r := stripFacAux p fuel (n / p)
      (r.1 + 1, r.2)
    else (0, n)

/-- Largest `a` with `p ^ a ∣ n` (second component: `n / p ^ a`). -/
def stripFac (p n : Nat) : Nat × Nat := stripFacAux p n n

/-- Smallest `k` with `d ∣ 10 ^ k`, when one exists (i.e. when the only prime
factors of `d` are 2 and 5).  Every positive denominator of an exact IEEE
float value is a power of two, so this succeeds on every modelled float. -/
def decScale (d : Nat) : Option Nat :=
  let a2 := stripFac 2 d
  let a5 := stripFac 5 a2.2
  if a5.2 = 1 then some (max a2.1 a5.1) else none

/-- Model of Python `str()` on a float, idealized over `ℚ`: the exact decimal
expansion (sign, integer part, point, fraction part) for any rational with a
decimal denominator — which includes every exact IEEE double value.  For a
non-decimal rational (impossible for a real float) the model yields `""`,
which no numeric parser accepts, so such values cannot round-trip silently.
The textual form may differ from CPython's shortest-repr digits, but `float()`
of either text recovers the same idealized value. -/
def floatStr (q : ℚ) : String :=
  match decScale q.den with
  | none => ""
  | some k =>
    let m := q.num.natAbs * 10 ^ k / q.den
    ⟨(if q.num < 0 then ['-'] else []) ++
      natDigits (m / 10 ^ k) ++ '.' :: padZeros (max k 1) (natDigits (m % 10 ^ k))⟩

/-- Index of the first occurrence of `pat` in a character list (Python
`str.find`, restricted to found-or-not via `Option`). -/
def strFindSub (pat : List Char) : List Char → Option Nat
  | [] => if pat = [] then some 0 else none
  | c :: t =>
    if pat.isPrefixOf (c :: t) then some 0 else (strFindSub pat t).map (fun i => i + 1)

/-! ## XML document model

`xml.dom.minidom` trees are modelled as `XNode`.  Attribute access
(`getAttribute`) returns `""` for a missing attribute, as minidom does.
`getElementsByTagName` returns every descendant element with the given tag in
document (preorder) order; each hit is paired with its path (list of child
indices) from the searched root, which models DOM node identity. -/

/-- A parsed XML node: element (tag, attributes, children), text, or CDATA. -/
inductive XNode where
  | elem (tag : String) (attrs : List (String × String)) (children : List XNode)
  | text (s : String)
  | cdata (s : String)
deriving Repr

/-- Model of minidom `getAttribute`: the attribute's value, or `""`. -/
def getAttribute (attrs : List (String × String)) (k : String) : String :=
  match attrs.find? (fun kv => kv.1 == k) with
  | some kv => kv.2
  | none => ""

/-- Character data of a node (`data` of TEXT and CDATA nodes). -/
def textData : XNode → Option String
  | .text s => some s
  | .cdata s => some s
  | .elem _ _ _ => none

/-- Model of `_text(tag)`: concatenate the data of the direct TEXT/CDATA
children and strip surrounding whitespace. -/
def elemText (children : List XNode) : String :=
  pyStrip (String.join (children.filterMap textData))

mutual

/-- Model of `getElementsByTagName` on a node: matching descendant elements
(the node itself included) in document order, each paired with its path. -/
def elemsByTag (t : String) : XNode → List (List Nat × XNode)
  | .text _ => []
  | .cdata _ => []
  | .elem tag attrs children =>
    (if tag == t then [(([] : List Nat), XNode.elem tag attrs children)] else []) ++
      elemsByTagList t 0 children

/-- Helper for `elemsByTag`: search a child list starting at child index `i`. -/
def elemsByTagList (t : String) (i : Nat) : List XNode → List (List Nat × XNode)
  | [] => []
  | c :: rest =>
    (elemsByTag t c).map (fun pn => (i :: pn.1, pn.2)) ++ elemsByTagList t (i + 1) rest

end

/-! ## Result model (`TestInfo`, `TestCaseResult`, `Result`) -/

/-- Common container for `error` and `failure` results (class `TestInfo`;
`TestError` and `TestFailure` differ only in the element tag they render). -/
structure TestInfo where
  type : String
  text : String
deriving DecidableEq, Repr

/-- A `testcase` result container. -/
structure TestCaseResult where
  name : String
  failures : List TestInfo
  errors : List TestInfo
  time : ℚ
  classname : String
deriving DecidableEq, Repr

/-- Property `passed`: true if the test has no errors and no failures. -/
def TestCaseResult.passed (tc : TestCaseResult) : Bool :=
  tc.errors.isEmpty && tc.failures.isEmpty

/-- A test-suite (or aggregate) result. -/
structure Result where
  name : String
  num_errors : Int
  num_failures : Int
  num_tests : Int
  test_case_results : List TestCaseResult
  system_out : String
  system_err : String
  time : ℚ
deriving DecidableEq, Repr

/-- Fresh `Result(name, 0, 0, 0)` with the constructor's defaults. -/
def zeroResult (test_name : String) : Result := ⟨test_name, 0, 0, 0, [], "", "", 0⟩

/-! ### IEEE-754 binary64 rounding

`Result.accumulate` adds `time` fields with Python float `+=`, i.e. IEEE-754
binary64 addition: the exact sum is rounded to the nearest representable
double (ties to even).  Every finite double is an exact rational, so the
fields stay `ℚ` and the rounding step is an explicit function on `ℚ`:
round-to-nearest-even at 53 significand bits, with the subnormal quantum
`2 ^ (-1074)` below `2 ^ (-1022)`.  Exponent overflow (magnitudes at or above
`2 ^ 1024`, far beyond any time value) is not modelled. -/

/-- Number of binary digits of `n` (`0` for `0`); fuel-based halving. -/
def bitLenAux : Nat → Nat → Nat
  | 0, _ => 0
  | fuel + 1, n => if n = 0 then 0 else bitLenAux fuel (n / 2) + 1

def bitLen (n : Nat) : Nat := bitLenAux n n

/-- Floor of the base-2 logarithm of `a / b` (`a`, `b` positive): the bit
lengths give a two-candidate window, and one comparison picks the floor. -/
def flog2 (a b : Nat) : Int :=
  let e0 : Int := (bitLen a : Int) - (bitLen b : Int)
  if 0 ≤ e0 then (if b * 2 ^ e0.toNat ≤ a then e0 else e0 - 1)
  else (if b ≤ a * 2 ^ (-e0).toNat then e0 else e0 - 1)

/-- Round `a / b` (`b` positive) to the nearest natural, ties to even. -/
def rndNE (a b : Nat) : Nat :=
  let q := a / b
  let r := a % b
  if 2 * r < b then q
  else if b < 2 * r then q + 1
  else if q % 2 = 0 then q else q + 1

/-- Round an exact rational to the nearest IEEE-754 binary64 value
(round-to-nearest, ties-to-even).  For `q ≠ 0` with `2 ^ e ≤ |q| < 2 ^ (e+1)`
the quantum is `2 ^ (e - 52)`, floored at the subnormal quantum
`2 ^ (-1074)`; the significand is rounded to an integer multiple of the
quantum with `rndNE`, symmetrically for negatives. -/
def roundDouble (q : ℚ) : ℚ :=
  if q.num = 0 then 0
  else
    let a := q.num.natAbs
    let b := q.den
    let k : Int := max (flog2 a b - 52) (-1074)
    let n : Nat := if 0 ≤ k then rndNE a (b * 2 ^ k.toNat) else rndNE (a * 2 ^ (-k).toNat) b
    let mag : ℚ := if 0 ≤ k then (n : ℚ) * 2 ^ k.toNat else (n : ℚ) / 2 ^ (-k).toNat
    if 0 ≤ q.num then mag else -mag

/-- Python float `+` on time fields: exact rational addition followed by
binary64 rounding. -/
def fadd (x y : ℚ) : ℚ := roundDouble (x + y)

/-- Model of `Result.accumulate(r)`: the method mutates `self` in place;
the model returns `self`'s new state.  `self.time += r.time` is float
addition, hence the rounding step `fadd`. -/
def Result.accumulate (self r : Result) : Result :=
  { self with
    num_errors := self.num_errors + r.num_errors
    num_failures := self.num_failures + r.num_failures
    num_tests := self.num_tests + r.num_tests
    time := fadd self.time r.time
    test_case_results := self.test_case_results ++ r.test_case_results
    system_out :=
      if r.system_out ≠ "" then self.system_out ++ "\n" ++ r.system_out else self.system_out
    system_err :=
      if r.system_err ≠ "" then self.system_err ++ "\n" ++ r.system_err else self.system_err }

/-- Model of a call `a.accumulate(b)` as a transformer of the pair of object
states: the receiver is updated in place, the argument is only read, so its
state is returned unchanged. -/
def accumulateCall (a b : Result) : Result × Result := (a.accumulate b, b)

/-- Model of `Result.add_test_case_result(r)`. -/
def Result.add_test_case_result (self : Result) (r : TestCaseResult) : Result :=
  { self with test_case_results := self.test_case_results ++ [r] }

/-! ## Serializer (`Result.xml` and the `xml` methods of the contained
objects), modelled at the element-tree level

`Result.xml` builds an ElementTree tree and renders it with `tostring`; the
monkey-patched serializer writes an element tagged `![CDATA[` as a literal
CDATA section.  The model keeps the tree (`XNode`, with an explicit `cdata`
variant for the sentinel-tagged elements); the stdlib render/parse text codec
is treated as the identity on trees. -/

/-- Model of `TestFailure.xml`: a `failure` element with the `type` attribute
and a CDATA body. -/
def TestInfo.failureXml (f : TestInfo) : XNode :=
  .elem "failure" [("type", f.type)] [.cdata f.text]

/-- Model of `TestError.xml`: an `error` element with the `type` attribute and
a CDATA body. -/
def TestInfo.errorXml (e : TestInfo) : XNode :=
  .elem "error" [("type", e.type)] [.cdata e.text]

/-- Model of `TestCaseResult.xml`: the `testcase` element with its
`classname`/`name`/`time` attributes and its failure children followed by its
error children. -/
def TestCaseResult.xmlTree (tc : TestCaseResult) : XNode :=
  .elem "testcase"
    [("classname", tc.classname), ("name", tc.name), ("time", floatStr tc.time)]
    (tc.failures.map TestInfo.failureXml ++ tc.errors.map TestInfo.errorXml)

/-- Model of `Result.xml`: the `testsuite` element with its stringified count
and time attributes, one child per test-case result, and trailing
`system-out`/`system-err` CDATA elements. -/
def Result.xmlTree (r : Result) : XNode :=
  .elem "testsuite"
    [("tests", intStr r.num_tests), ("failures", intStr r.num_failures),
     ("time", floatStr r.time), ("errors", intStr r.num_errors), ("name", r.name)]
    (r.test_case_results.map TestCaseResult.xmlTree ++
      [.elem "system-out" [] [.cdata r.system_out],
       .elem "system-err" [] [.cdata r.system_err]])

/-! ## Suite loader (`_load_suite_results`) -/

/-- Classname mangling of `_load_suite_results` "for some sense of uniformity
between rostest/unittest/gtest": first strip everything up to and including
the first `__main__.`; then (on the stripped value) either replace the
`rostest.rostest.RosTest` sentinel by `rostest`, or prefix `result.name` when
the classname does not already start with it. -/
def normalizeClassname (resultName cn : String) : String :=
  let cn1 :=
    match strFindSub ("__main__.".data) cn.data with
    | some i => (⟨cn.data.drop (i + 9)⟩ : String)
    | none => cn
  if cn1 = "rostest.rostest.RosTest" then "rostest"
  else if ¬ pyStartsWith cn1 resultName then resultName ++ "." ++ cn1
  else cn1

/-- A run of `k` dashes, as in the stdout/stderr banner lines. -/
def dashes (k : Nat) : String := ⟨List.replicate k '-'⟩

/-- Walk of the element children of one `testcase` node: `failure` children
append to the failure list, `error` children to the error list; the body text
is used when non-empty, else the `message` attribute (`''` when absent). -/
def loadCaseChildren (acc : List TestInfo × List TestInfo) :
    List XNode → List TestInfo × List TestInfo
  | [] => acc
  | .elem tag attrs cs :: rest =>
    if tag == "failure" then
      let txt := pyOr (elemText cs) (getAttribute attrs "message")
      loadCaseChildren (acc.1 ++ [⟨getAttribute attrs "type", txt⟩], acc.2) rest
    else if tag == "error" then
      let txt := pyOr (elemText cs) (getAttribute attrs "message")
      loadCaseChildren (acc.1, acc.2 ++ [⟨getAttribute attrs "type", txt⟩]) rest
    else loadCaseChildren acc rest
  | _ :: rest => loadCaseChildren acc rest

mutual

/-- Model of the loop of `_load_suite_results(test_suite_name, test_suite,
result)` over the element children of `test_suite`, threading the mutated
`result`. -/
def loadSuiteChildren (tsName : String) : List XNode → Result → Except PyErr Result
  | [], result => .ok result
  | n :: rest, result =>
    match loadSuiteNode tsName n result with
    | .error e => .error e
    | .ok result2 => loadSuiteChildren tsName rest result2

/-- One element child of a suite: nested `testsuite` elements are flattened by
recursion; non-empty `system-out`/`system-err` text is appended to the result
with a banner line; a `testcase` child builds a `TestCaseResult` whose name is
prefixed by `tsName`, whose classname is normalized against `result.name`,
and whose time is `float(...)` of the `time` attribute — note that a missing
or unparsable `time` makes `float` raise `ValueError` (the trailing
`or 0.0` in the source can never see a missing attribute). -/
def loadSuiteNode (tsName : String) (n : XNode) (result : Result) : Except PyErr Result :=
  match n with
  | .text _ => .ok result
  | .cdata _ => .ok result
  | .elem tag attrs children =>
    if tag == "testsuite" then
      loadSuiteChildren tsName children result
    else if tag == "system-out" then
      .ok (if elemText children ≠ "" then
        { result with system_out :=
            result.system_out ++
              "[" ++ tsName ++ "] stdout" ++ dashes (71 - tsName.length) ++
              "\n" ++ elemText children }
      else result)
    else if tag == "system-err" then
      .ok (if elemText children ≠ "" then
        { result with system_err :=
            result.system_err ++
              "[" ++ tsName ++ "] stderr" ++ dashes (71 - tsName.length) ++
              "\n" ++ elemText children }
      else result)
    else if tag == "testcase" then
      let nm := pyOr (getAttribute attrs "name") "unknown"
      let cn := normalizeClassname result.name (pyOr (getAttribute attrs "classname") "unknown")
      match parseFloat (getAttribute attrs "time") with
      | none => .error .valueError
      | some t =>
        let fe := loadCaseChildren ([], []) children
        .ok (result.add_test_case_result ⟨tsName ++ "/" ++ nm, fe.1, fe.2, t, cn⟩)
    else .ok result

end

/-! ## Single-file reader (`read`) -/

/-- Model of `os.path.basename` (POSIX): the part after the last slash. -/
def basename (p : String) : String :=
  ⟨(p.data.reverse.takeWhile (fun c => c ≠ '/')).reverse⟩

/-- Model of `os.path.dirname` (POSIX): the part before the last slash, with
trailing slashes stripped unless the result is all slashes. -/
def dirname (p : String) : String :=
  let head := (p.data.reverse.dropWhile (fun c => c ≠ '/')).reverse
  if head.all (fun c => c = '/') then ⟨head⟩
  else ⟨(head.reverse.dropWhile (fun c => c = '/')).reverse⟩

/-- The file-derived disambiguation prefix of `read`:
`basename(dirname(abspath(test_file)))`, a dot, and the file name with a
leading `TEST-` and a trailing `.xml` stripped.  `os.path.abspath` is
modelled as the identity, i.e. the model covers absolute, already-normalized
paths (which is what the aggregator passes). -/
def fileBase (test_file : String) : String :=
  let base := basename (dirname test_file)
  let fname0 := basename test_file
  let fname1 := if pyStartsWith fname0 "TEST-" then strDrop fname0 5 else fname0
  let fname2 := if pyEndsWith fname1 ".xml" then strDropRight fname1 4 else fname1
  base ++ "." ++ fname2

/-- Count attribute handling of `read`: `getAttribute` yields `''` for a
missing attribute, the comprehension `[v or 0 for v in vals]` turns `''` into
the int `0`, and `string.atoi(0)` — that is `int(0, 10)` — raises `TypeError`
because `int` with an explicit base requires a string; a present attribute is
parsed with `string.atoi`, raising `ValueError` when not an integer
literal. -/
def parseCount (v : String) : Except PyErr Int :=
  if v = "" then .error .typeError else atoi v

/-- Per-suite body of `read`'s loop: parse the `errors`/`failures`/`tests`
counts (in evaluation order), build `Result(test_name, err, fail, tests)`,
set its time (`0.0` for an absent attribute, else `float(...)`, which raises
on an unparsable value), and run `_load_suite_results` over the suite's
children. -/
def processSuite (test_file_base test_name : String)
    (attrs : List (String × String)) (children : List XNode) : Except PyErr Result :=
  match parseCount (getAttribute attrs "errors") with
  | .error e => .error e
  | .ok err =>
    match parseCount (getAttribute attrs "failures") with
    | .error e => .error e
    | .ok fail =>
      match parseCount (getAttribute attrs "tests") with
      | .error e => .error e
      | .ok tests =>
        let timeAttr := getAttribute attrs "time"
        match (if timeAttr = "" then some 0 else parseFloat timeAttr) with
        | none => .error .valueError
        | some t =>
          loadSuiteChildren test_file_base children
            ⟨test_name, err, fail, tests, [], "", "", t⟩

/-- Model of `read`'s `enumerate(test_suites)` loop: a suite whose
`parentNode` is one of the previously enumerated suites (`index > 0 and
test_suite.parentNode in test_suites[0:index]`) is skipped; every other suite
is processed and accumulated into `results`.  Node identity is path
equality; `seen` carries the paths of the suites enumerated so far. -/
def readSuitesGo (test_file_base test_name : String) (seen : List (List Nat))
    (results : Result) : List (List Nat × XNode) → Except PyErr Result
  | [] => .ok results
  | (p, n) :: rest =>
    if seen ≠ [] ∧ p.dropLast ∈ seen then
      readSuitesGo test_file_base test_name (seen ++ [p]) results rest
    else
      match n with
      | .elem _ attrs children =>
        match processSuite test_file_base test_name attrs children with
        | .error e => .error e
        | .ok result =>
          readSuitesGo test_file_base test_name (seen ++ [p]) (results.accumulate result) rest
      | _ => readSuitesGo test_file_base test_name (seen ++ [p]) results rest

/-- The part of `read` past the document parse: query all `testsuite`
elements; when there are none, warn and return the zero Result; otherwise
fold the non-skipped suites. -/
def readParsed (doc : XNode) (test_file test_name : String) : Except PyErr Result :=
  let test_suites := elemsByTag "testsuite" doc
  if test_suites.isEmpty then .ok (zeroResult test_name)
  else readSuitesGo (fileBase test_file) test_name [] (zeroResult test_name) test_suites

/-- Model of `read(test_file, test_name)`.  `content` is the decoded code-unit
content of the file (`none`: the file does not exist, which makes
`_read_file_safe_xml` raise and `read` catch); `parse` is the
`minidom.parseString` oracle applied to the sanitized text (`none`: a parse
error, caught by `read`).  Every caught condition prints a warning and
returns the zero-valued `Result(test_name, 0, 0, 0)`. -/
def read (parse : List Nat → Option XNode) (content : Option (List Nat))
    (test_file test_name : String) : Except PyErr Result :=
  match content with
  | none => .ok (zeroResult test_name)
  | some c =>
    let x := sanitize c
    if stripUnits x = [] then .ok (zeroResult test_name)
    else
      match parse x with
      | none => .ok (zeroResult test_name)
      | some doc => readParsed doc test_file test_name


/-! ## Derived definitions used by the claims -/

/-- Whether the raw classname contains the `__main__.` marker. -/
def containsMarker (cn : String) : Bool :=
  (strFindSub ("__main__.".data) cn.data).isSome

/-- Positions (offset by `i`) of the group-1 illegal units of a string. -/
def illegalOffsets (i : Nat) : List Nat → List Nat
  | [] => []
  | c :: rest =>
    if illegalSingle c then i :: illegalOffsets (i + 1) rest
    else illegalOffsets (i + 1) rest

/-- The `TestCaseResult` the loader rebuilds from a serialized test case. -/
def reloadCase (pfx rname : String) (tc : TestCaseResult) : TestCaseResult :=
  ⟨pfx ++ "/" ++ pyOr tc.name "unknown",
   tc.failures.map (fun f => ⟨f.type, pyStrip f.text⟩),
   tc.errors.map (fun e => ⟨e.type, pyStrip e.text⟩),
   tc.time,
   normalizeClassname rname (pyOr tc.classname "unknown")⟩

/-! ## Claims about `Result.accumulate` -/

/-- `fadd` of the doubles 0.1 and 0.2 (the sum ties halfway between two
doubles and rounds up to the even significand). -/
theorem fadd_eval_ab :
    fadd (3602879701896397 / 36028797018963968 : ℚ) (3602879701896397 / 18014398509481984)
      = 5404319552844596 / 18014398509481984 := by
  unfold fadd roundDouble
  rw [show (3602879701896397 / 36028797018963968 + 3602879701896397 / 18014398509481984 : ℚ)
      = 10808639105689191 / 36028797018963968 from by norm_num]
  norm_num [show Int.toNat 54 = 54 from rfl,
    show flog2 10808639105689191 36028797018963968 = -2 from by decide,
    show rndNE 194711132195056046878532718034944 36028797018963968 = 5404319552844596 from by
      decide]

/-- `fadd` of the previous rounded sum with the double 0.3: another tie,
rounded up — the grouping `(0.1 + 0.2) + 0.3`. -/
theorem fadd_eval_ab_c :
    fadd (5404319552844596 / 18014398509481984 : ℚ) (5404319552844595 / 18014398509481984)
      = 5404319552844596 / 9007199254740992 := by
  unfold fadd roundDouble
  rw [show (5404319552844596 / 18014398509481984 + 5404319552844595 / 18014398509481984 : ℚ)
      = 10808639105689191 / 18014398509481984 from by norm_num]
  norm_num [show Int.toNat 53 = 53 from rfl,
    show flog2 10808639105689191 18014398509481984 = -1 from by decide,
    show rndNE 97355566097528023439266359017472 18014398509481984 = 5404319552844596 from by
      decide]

/-- `fadd` of the doubles 0.2 and 0.3: the exact sum is 1/2, which is
representable, so no rounding happens. -/
theorem fadd_eval_bc :
    fadd (3602879701896397 / 18014398509481984 : ℚ) (5404319552844595 / 18014398509481984)
      = 1 / 2 := by
  unfold fadd roundDouble
  rw [show (3602879701896397 / 18014398509481984 + 5404319552844595 / 18014398509481984 : ℚ)
      = 1 / 2 from by norm_num]
  norm_num [show Int.toNat 53 = 53 from rfl,
    show flog2 1 2 = -1 from by decide,
    show rndNE 9007199254740992 2 = 4503599627370496 from by decide]

/-- `fadd` of the double 0.1 with 1/2: rounds down — the grouping
`0.1 + (0.2 + 0.3)` lands one ulp below the other grouping. -/
theorem fadd_eval_a_bc :
    fadd (3602879701896397 / 36028797018963968 : ℚ) (1 / 2)
      = 5404319552844595 / 9007199254740992 := by
  unfold fadd roundDouble
  rw [show (3602879701896397 / 36028797018963968 + 1 / 2 : ℚ)
      = 21617278211378381 / 36028797018963968 from by norm_num]
  norm_num [show Int.toNat 53 = 53 from rfl,
    show flog2 21617278211378381 36028797018963968 = -1 from by decide,
    show rndNE 194711132195056037871333463293952 36028797018963968 = 5404319552844595 from by
      decide]

/-- C4 counterexample: `accumulate` is NOT associative on `time` — the claim
"folding in any order or grouping yields identical time" fails.  With Results
whose times are the doubles 0.1, 0.2 and 0.3
(`0.1 = 3602879701896397 / 2^55`, `0.2 = 3602879701896397 / 2^54`,
`0.3 = 5404319552844595 / 2^54` exactly), `(A + B) + C` gives the double
0.6000000000000001 while `A + (B + C)` gives the double 0.6: float `+=`
rounds each partial sum to 53 significand bits, and the two groupings round
differently. -/
theorem accumulate_time_not_assoc_counterexample :
    ((((⟨"a", 0, 0, 0, [], "", "", 3602879701896397 / 36028797018963968⟩ : Result).accumulate
          ⟨"b", 0, 0, 0, [], "", "", 3602879701896397 / 18014398509481984⟩).accumulate
        ⟨"c", 0, 0, 0, [], "", "", 5404319552844595 / 18014398509481984⟩).time
      = 5404319552844596 / 9007199254740992)
    ∧ (((⟨"a", 0, 0, 0, [], "", "", 3602879701896397 / 36028797018963968⟩ : Result).accumulate
          ((⟨"b", 0, 0, 0, [], "", "", 3602879701896397 / 18014398509481984⟩ : Result).accumulate
            ⟨"c", 0, 0, 0, [], "", "", 5404319552844595 / 18014398509481984⟩)).time
      = 5404319552844595 / 9007199254740992)
    ∧ (5404319552844596 / 9007199254740992 : ℚ) ≠ 5404319552844595 / 9007199254740992 := by
  refine ⟨?_, ?_, by norm_num⟩
  · show fadd (fadd (3602879701896397 / 36028797018963968) (3602879701896397 / 18014398509481984))
        (5404319552844595 / 18014398509481984) = 5404319552844596 / 9007199254740992
    rw [fadd_eval_ab, fadd_eval_ab_c]
  · show fadd (3602879701896397 / 36028797018963968)
        (fadd (3602879701896397 / 18014398509481984) (5404319552844595 / 18014398509481984))
        = 5404319552844595 / 9007199254740992
    rw [fadd_eval_bc, fadd_eval_a_bc]

/-- C4 amended: folding Results via `accumulate` in any order or grouping
yields identical `num_tests`, `num_errors` and `num_failures` (integer
addition is associative and commutative), and swapping the two operands of a
single `accumulate` leaves `time` unchanged (float addition is commutative);
`test_case_results` is the concatenation of the children's sequences in fold
order.  `time` under REGROUPING is not preserved: float `+=` rounds each
partial sum, and the two groupings can differ by one ulp (see the
counterexample). -/
theorem accumulate_assoc_comm_amended (a b c : Result) :
    (((a.accumulate b).accumulate c).num_tests = (a.accumulate (b.accumulate c)).num_tests
      ∧ ((a.accumulate b).accumulate c).num_errors = (a.accumulate (b.accumulate c)).num_errors
      ∧ ((a.accumulate b).accumulate c).num_failures
          = (a.accumulate (b.accumulate c)).num_failures)
    ∧ ((a.accumulate b).num_tests = (b.accumulate a).num_tests
      ∧ (a.accumulate b).num_errors = (b.accumulate a).num_errors
      ∧ (a.accumulate b).num_failures = (b.accumulate a).num_failures
      ∧ (a.accumulate b).time = (b.accumulate a).time)
    ∧ ((a.accumulate b).accumulate c).test_case_results
        = a.test_case_results ++ b.test_case_results ++ c.test_case_results := by
  refine ⟨⟨?_, ?_, ?_⟩, ⟨?_, ?_, ?_, ?_⟩, ?_⟩
  · simp [Result.accumulate] <;> ring
  · simp [Result.accumulate] <;> ring
  · simp [Result.accumulate] <;> ring
  · simp [Result.accumulate] <;> ring
  · simp [Result.accumulate] <;> ring
  · simp [Result.accumulate] <;> ring
  · show fadd a.time b.time = fadd b.time a.time
    unfold fadd
    rw [add_comm]
  · simp [Result.accumulate]

/-- C10: a call `a.accumulate(b)` leaves the argument `b` entirely unchanged
and leaves the receiver's `name` unchanged; only the receiver's counts, time,
output strings and `test_case_results` are updated (to the sums — the rounded
float sum for `time` — concatenation, and conditionally appended outputs
shown). -/
theorem accumulate_frame (a b : Result) :
    (accumulateCall a b).2 = b
    ∧ (accumulateCall a b).1.name = a.name
    ∧ (accumulateCall a b).1.num_errors = a.num_errors + b.num_errors
    ∧ (accumulateCall a b).1.num_failures = a.num_failures + b.num_failures
    ∧ (accumulateCall a b).1.num_tests = a.num_tests + b.num_tests
    ∧ (accumulateCall a b).1.time = fadd a.time b.time
    ∧ (accumulateCall a b).1.test_case_results = a.test_case_results ++ b.test_case_results
    ∧ (accumulateCall a b).1.system_out
        = (if b.system_out ≠ "" then a.system_out ++ "\n" ++ b.system_out else a.system_out)
    ∧ (accumulateCall a b).1.system_err
        = (if b.system_err ≠ "" then a.system_err ++ "\n" ++ b.system_err else a.system_err) := by
  refine ⟨rfl, rfl, rfl, rfl, rfl, rfl, rfl, rfl, rfl⟩

/-! ## Claims about classname normalization -/

/-- C3 counterexample: with aggregate name `pkg`, the raw classname
`__main__.MyTest` does NOT normalize to `MyTest` — the marker-stripping rule
is not "first match wins": after stripping, the prefixing rule still runs and
produces `pkg.MyTest`. -/
theorem normalize_firstmatch_counterexample :
    normalizeClassname "pkg" "__main__.MyTest" = "pkg.MyTest"
    ∧ normalizeClassname "pkg" "__main__.MyTest" ≠ "MyTest" := by
  decide

/-- C3 amended: marker stripping is applied first and the remaining two rules
(first match wins between them) are then applied to the stripped value:
`__main__.MyTest` normalizes to `MyTest` exactly when `MyTest` already starts
with the aggregate name, else to `<aggregate>.MyTest`; the sentinel
`rostest.rostest.RosTest` becomes `rostest`; a marker-free classname is kept
as is when it starts with the aggregate name and prefixed otherwise; and on a
marker-containing classname the function agrees with itself applied to the
stripped value (when one strip suffices). -/
theorem normalize_classname_amended (rn cn : String) :
    (normalizeClassname rn "__main__.MyTest"
        = if pyStartsWith "MyTest" rn then "MyTest" else rn ++ "." ++ "MyTest")
    ∧ normalizeClassname rn "rostest.rostest.RosTest" = "rostest"
    ∧ (containsMarker cn = false → cn ≠ "rostest.rostest.RosTest" →
        pyStartsWith cn rn = true → normalizeClassname rn cn = cn)
    ∧ (containsMarker cn = false → cn ≠ "rostest.rostest.RosTest" →
        pyStartsWith cn rn = false → normalizeClassname rn cn = rn ++ "." ++ cn)
    ∧ (∀ i, strFindSub ("__main__.".data) cn.data = some i →
        containsMarker (⟨cn.data.drop (i + 9)⟩ : String) = false →
        normalizeClassname rn cn = normalizeClassname rn ⟨cn.data.drop (i + 9)⟩) := by
  refine ⟨?_, ?_, ?_, ?_, ?_⟩
  · have h : strFindSub ("__main__.".data) ("__main__.MyTest".data) = some 0 := by decide
    have h2 : (⟨("__main__.MyTest".data).drop (0 + 9)⟩ : String) = "MyTest" := by decide
    simp only [normalizeClassname, h, h2]
    have h3 : ("MyTest" : String) ≠ "rostest.rostest.RosTest" := by decide
    simp only [h3, if_false]
    by_cases hsw : pyStartsWith "MyTest" rn
    · simp [hsw]
    · simp [hsw]
  · have h : strFindSub ("__main__.".data) ("rostest.rostest.RosTest".data) = none := by
      decide
    simp [normalizeClassname, h]
  · intro hm hs hp
    have hm' : strFindSub ("__main__.".data) cn.data = none := by
      revert hm
      unfold containsMarker
      cases strFindSub ("__main__.".data) cn.data <;> simp
    simp [normalizeClassname, hm', hs, hp]
  · intro hm hs hp
    have hm' : strFindSub ("__main__.".data) cn.data = none := by
      revert hm
      unfold containsMarker
      cases strFindSub ("__main__.".data) cn.data <;> simp
    simp [normalizeClassname, hm', hs, hp]
  · intro i hi hm
    have hm' : strFindSub ("__main__.".data) (⟨cn.data.drop (i + 9)⟩ : String).data = none := by
      revert hm
      unfold containsMarker
      cases strFindSub ("__main__.".data) (⟨cn.data.drop (i + 9)⟩ : String).data <;> simp
    simp [normalizeClassname, hi, hm']

/-- C3 amended, witness: the non-vacuity of the amended rules at concrete
inputs (keep when already prefixed; prefix otherwise; marker stripping
composes). -/
theorem normalize_classname_amended_witness :
    normalizeClassname "pkg" "pkg.T" = "pkg.T"
    ∧ normalizeClassname "pkg" "x.y" = "pkg.x.y"
    ∧ normalizeClassname "pkg" "__main__.MyTest"
        = normalizeClassname "pkg" (⟨("__main__.MyTest".data).drop (0 + 9)⟩ : String) :=
  ⟨(normalize_classname_amended "pkg" "pkg.T").2.2.1 (by decide) (by decide) (by decide),
   (normalize_classname_amended "pkg" "x.y").2.2.2.1 (by decide) (by decide) (by decide),
   (normalize_classname_amended "pkg" "__main__.MyTest").2.2.2.2 0 (by decide) (by decide)⟩

/-! ## Claims about the output sanitizer -/

/-- C9: the printable class as the regex actually parses omits the
supplementary plane, so a supplementary-plane character — U+10000, whether
carried as the narrow-build surrogate pair `d800 dc00` or as a single wide
code point — is REMOVED from output text rather than passed through, while
the BMP printable characters (tab and samples of both kept ranges) do pass
unchanged and controls are stripped. -/
theorem filter_nonprintable_strips_supplementary :
    filter_nonprintable_text [0xd800, 0xdc00] = []
    ∧ filter_nonprintable_text [0x10000] = []
    ∧ filter_nonprintable_text [0x9, 0xa, 0xd, 0x20, 0x41, 0xd7ff, 0xe000, 0xfffd]
        = [0x9, 0xa, 0xd, 0x20, 0x41, 0xd7ff, 0xe000, 0xfffd]
    ∧ filter_nonprintable_text [0x41, 0x7, 0x1f, 0xfffe, 0x42] = [0x41, 0x42] := by
  decide

/-! ## Ingestion sanitizer lemmas -/

theorem illegalOffsets_bounds (l : List Nat) :
    ∀ i j, j ∈ illegalOffsets i l → i ≤ j ∧ j < i + l.length := by
  induction l with
  | nil => intro i j hj; simp [illegalOffsets] at hj
  | cons c rest ih =>
    intro i j hj
    by_cases hc : illegalSingle c
    · simp [illegalOffsets, hc] at hj
      rcases hj with rfl | hj
      · simp
      · have := ih (i + 1) j hj
        simp only [List.length_cons]
        omega
    · simp [illegalOffsets, hc] at hj
      have := ih (i + 1) j hj
      simp only [List.length_cons]
      omega

/-- On surrogate-free input, the scanner reports exactly the single-unit
matches at the illegal positions. -/
theorem findMatches_surrFree (l : List Nat) :
    (∀ c ∈ l, isSurr c = false) →
    ∀ i, findMatches i l = (illegalOffsets i l).map (fun j => (j, j + 1)) := by
  induction l with
  | nil => intro _ i; simp [findMatches, illegalOffsets]
  | cons c rest ih =>
    intro h i
    have hc : isSurr c = false := h c (by simp)
    have hrest : ∀ x ∈ rest, isSurr x = false := fun x hx => h x (by simp [hx])
    have hchi : isHiSurr c = false := by
      revert hc; unfold isSurr; cases isHiSurr c <;> simp
    have hclo : isLoSurr c = false := by
      revert hc; unfold isSurr; cases isHiSurr c <;> cases isLoSurr c <;> simp
    by_cases hcill : illegalSingle c
    · simp [findMatches, hcill, illegalOffsets, ih hrest (i + 1)]
    · cases rest with
      | nil => simp [findMatches, hcill, hchi, hclo, illegalOffsets]
      | cons d rest2 =>
        have hdlo : isLoSurr d = false := by
          have hd := hrest d (by simp)
          revert hd; unfold isSurr; cases isHiSurr d <;> cases isLoSurr d <;> simp
        have hnext : findMatches i (c :: d :: rest2) = findMatches (i + 1) (d :: rest2) := by
          simp [findMatches, hcill, hchi, hclo, hdlo]
        rw [hnext, ih hrest (i + 1)]
        simp [illegalOffsets, hcill]

/-- With only in-range single-unit matches, the replacement loop is a fold of
in-place sets. -/
theorem applyRepl_unit (offs : List Nat) :
    ∀ x : List Nat, (∀ j ∈ offs, j < x.length) →
    applyRepl x (offs.map (fun j => (j, j + 1)))
      = offs.foldl (fun a j => a.set j 0x3f) x := by
  induction offs with
  | nil => intro x _; simp [applyRepl]
  | cons j offs ih =>
    intro x hb
    have hj : j < x.length := hb j (by simp)
    have hstep : x.take j ++ 0x3f :: x.drop (j + 1) = x.set j 0x3f :=
      (List.set_eq_take_cons_drop _ hj).symm
    have hlen : (x.set j 0x3f).length = x.length := by simp
    have hb2 : ∀ k ∈ offs, k < (x.set j 0x3f).length := by
      intro k hk; rw [hlen]; exact hb k (by simp [hk])
    simp only [applyRepl, List.map_cons, List.foldl_cons] at *
    rw [hstep]
    exact ih (x.set j 0x3f) hb2

/-- Setting positions `≥ 1` commutes with an untouched head. -/
theorem foldl_set_shift (offs : List Nat) :
    ∀ (a : Nat) (t : List Nat),
    (offs.map (fun j => j + 1)).foldl (fun acc j => acc.set j 0x3f) (a :: t)
      = a :: offs.foldl (fun acc j => acc.set j 0x3f) t := by
  induction offs with
  | nil => intro a t; simp
  | cons j offs ih =>
    intro a t
    simp only [List.map_cons, List.foldl_cons, List.set_cons_succ]
    exact ih a (t.set j 0x3f)

/-- The shift of the illegal-offset list. -/
theorem illegalOffsets_shift (l : List Nat) :
    ∀ i, illegalOffsets (i + 1) l = (illegalOffsets i l).map (fun j => j + 1) := by
  induction l with
  | nil => intro i; simp [illegalOffsets]
  | cons c rest ih =>
    intro i
    by_cases hc : illegalSingle c
    · simp [illegalOffsets, hc, ih (i + 1)]
    · simp [illegalOffsets, hc, ih (i + 1)]

/-- Folding sets over the illegal offsets is the pointwise replacement map. -/
theorem foldl_set_illegal (l : List Nat) :
    (illegalOffsets 0 l).foldl (fun a j => a.set j 0x3f) l
      = l.map (fun c => if illegalSingle c then 0x3f else c) := by
  induction l with
  | nil => simp [illegalOffsets]
  | cons c rest ih =>
    have hshift := illegalOffsets_shift rest 0
    norm_num at hshift
    by_cases hc : illegalSingle c
    · rw [show illegalOffsets 0 (c :: rest) = 0 :: illegalOffsets 1 rest by
        simp [illegalOffsets, hc]]
      rw [hshift]
      simp only [List.foldl_cons, List.set_cons_zero]
      rw [foldl_set_shift]
      simp [hc, ih]
    · rw [show illegalOffsets 0 (c :: rest) = illegalOffsets 1 rest by
        simp [illegalOffsets, hc]]
      rw [hshift, foldl_set_shift]
      simp [hc, ih]

/-- Pointwise replacement of the group-1 illegal units by `?`. -/
theorem sanitize_surr_free_eq_map (s : List Nat) (h : ∀ c ∈ s, isSurr c = false) :
    sanitize s = s.map (fun c => if illegalSingle c then 0x3f else c) := by
  unfold sanitize
  rw [findMatches_surrFree s h 0]
  rw [applyRepl_unit (illegalOffsets 0 s) s
    (fun j hj => by simpa using (illegalOffsets_bounds s 0 j hj).2)]
  exact foldl_set_illegal s

/-- Cleanliness of the sanitizer's output on surrogate-free input. -/
theorem sanitize_surr_free_clean (s : List Nat) (h : ∀ c ∈ s, isSurr c = false) :
    ∀ c ∈ sanitize s, illegalSingle c = false ∧ isSurr c = false := by
  intro c hc
  rw [sanitize_surr_free_eq_map s h] at hc
  rcases List.mem_map.mp hc with ⟨a, ha, rfl⟩
  by_cases hia : illegalSingle a
  · have he : (if illegalSingle a then (0x3f : Nat) else a) = 0x3f := if_pos hia
    rw [he]
    exact ⟨by decide, by decide⟩
  · have he : (if illegalSingle a then (0x3f : Nat) else a) = a := if_neg hia
    rw [he]
    exact ⟨by simpa using hia, h a ha⟩

/-- C6 amended: on surrogate-free input the ingestion sanitizer replaces each
XML-illegal character one-for-one by `?`, so the output has exactly the
input's length and contains no illegal characters (in particular no null
byte); the original claim's guarantee fails for unpaired surrogates, whose
two-unit regex matches shrink the string and shift the later replacement
offsets (see the counterexample). -/
theorem sanitize_surrogate_free (s : List Nat) (h : ∀ c ∈ s, isSurr c = false) :
    sanitize s = s.map (fun c => if illegalSingle c then 0x3f else c)
    ∧ (sanitize s).length = s.length
    ∧ ∀ c ∈ sanitize s, illegalSingle c = false ∧ isSurr c = false := by
  have hmap := sanitize_surr_free_eq_map s h
  exact ⟨hmap, by rw [hmap]; simp, sanitize_surr_free_clean s h⟩

/-- C6 witness: the guarantee at a concrete surrogate-free input holding a
null byte. -/
theorem sanitize_surrogate_free_witness :
    sanitize [0x0, 0x61] = [0x0, 0x61].map (fun c => if illegalSingle c then 0x3f else c) :=
  (sanitize_surrogate_free [0x0, 0x61] (by decide)).1

/-- C6 counterexample: the input `d800 61 62 00` contains a null byte and an
unpaired surrogate, yet the sanitized output still CONTAINS the null byte
(the surrogate's two-unit match shrank the string, so the later null-byte
replacement hit a shifted offset), and for `d800 61` the output length is 1,
not the input's 2 — refuting both the zero-remaining-characters and
length-preservation guarantees. -/
theorem sanitize_counterexample :
    sanitize [0xd800, 0x61, 0x62, 0x0] = [0x3f, 0x62, 0x0, 0x3f]
    ∧ ((sanitize [0xd800, 0x61, 0x62, 0x0]).contains 0x0 = true)
    ∧ sanitize [0xd800, 0x61] = [0x3f]
    ∧ (sanitize [0xd800, 0x61]).length ≠ [0xd800, 0x61].length := by
  decide

/-- C8 amended: sanitizing text free of XML-illegal characters and surrogates
returns it unchanged, and the sanitizer is idempotent on surrogate-free input;
full idempotence (the claim's "resanitizing a write-back file is always a
no-op") fails on inputs with unpaired surrogates (see the counterexample). -/
theorem sanitize_idempotent_amended (s : List Nat) :
    ((∀ c ∈ s, illegalSingle c = false ∧ isSurr c = false) → sanitize s = s)
    ∧ ((∀ c ∈ s, isSurr c = false) → sanitize (sanitize s) = sanitize s) := by
  constructor
  · intro h
    have hsf : ∀ c ∈ s, isSurr c = false := fun c hc => (h c hc).2
    rw [sanitize_surr_free_eq_map s hsf]
    have : ∀ c ∈ s, (if illegalSingle c then 0x3f else c) = c := by
      intro c hc; simp [(h c hc).1]
    calc s.map (fun c => if illegalSingle c then 0x3f else c)
        = s.map id := List.map_congr_left fun c hc => this c hc
      _ = s := List.map_id s
  · intro h
    have hclean : ∀ c ∈ sanitize s, illegalSingle c = false ∧ isSurr c = false :=
      sanitize_surr_free_clean s h
    have hsf2 : ∀ c ∈ sanitize s, isSurr c = false := fun c hc => (hclean c hc).2
    rw [sanitize_surr_free_eq_map (sanitize s) hsf2]
    calc (sanitize s).map (fun c => if illegalSingle c then 0x3f else c)
        = (sanitize s).map id :=
          List.map_congr_left fun c hc => by simp [(hclean c hc).1]
      _ = sanitize s := List.map_id _

/-- C8 witness: the no-op on clean text and the idempotence on a concrete
surrogate-free input that does need sanitizing. -/
theorem sanitize_idempotent_amended_witness :
    sanitize [0x61, 0x62] = [0x61, 0x62]
    ∧ sanitize (sanitize [0x0]) = sanitize [0x0] :=
  ⟨(sanitize_idempotent_amended [0x61, 0x62]).1 (by decide),
   (sanitize_idempotent_amended [0x0]).2 (by decide)⟩

/-- C8 counterexample: re-sanitizing is NOT always a no-op — an input with an
unpaired surrogate sanitizes to a string that still contains a null byte, and
a second pass changes it again, so the write-back file is not byte-identical
the second time. -/
theorem sanitize_not_idempotent_counterexample :
    sanitize [0xd800, 0x41, 0x42, 0x0] = [0x3f, 0x42, 0x0, 0x3f]
    ∧ sanitize (sanitize [0xd800, 0x41, 0x42, 0x0]) = [0x3f, 0x42, 0x3f, 0x3f]
    ∧ sanitize (sanitize [0xd800, 0x41, 0x42, 0x0]) ≠ sanitize [0xd800, 0x41, 0x42, 0x0] := by
  decide

/-! ## Claims about `read` -/

/-- C1: `read` fails soft on the four enumerated conditions — a missing file,
content that is empty after sanitization/stripping, a document the XML parser
rejects, and a parsed document without any `testsuite` element — returning
`Result(test_name, 0, 0, 0)` (zero counts, zero time, no test cases) instead
of propagating an exception; the condition is only reported as a printed
warning. -/
theorem read_fail_soft (parse : List Nat → Option XNode) (content : Option (List Nat))
    (test_file test_name : String)
    (h : content = none
      ∨ (∃ c, content = some c ∧ stripUnits (sanitize c) = [])
      ∨ (∃ c, content = some c ∧ stripUnits (sanitize c) ≠ [] ∧ parse (sanitize c) = none)
      ∨ (∃ c doc, content = some c ∧ stripUnits (sanitize c) ≠ [] ∧
          parse (sanitize c) = some doc ∧ elemsByTag "testsuite" doc = [])) :
    read parse content test_file test_name = .ok (zeroResult test_name) := by
  rcases h with rfl | ⟨c, rfl, hs⟩ | ⟨c, rfl, hs, hp⟩ | ⟨c, doc, rfl, hs, hp, he⟩
  · rfl
  · show (if stripUnits (sanitize c) = [] then Except.ok (zeroResult test_name)
        else match parse (sanitize c) with
          | none => Except.ok (zeroResult test_name)
          | some doc => readParsed doc test_file test_name)
      = Except.ok (zeroResult test_name)
    rw [if_pos hs]
  · show (if stripUnits (sanitize c) = [] then Except.ok (zeroResult test_name)
        else match parse (sanitize c) with
          | none => Except.ok (zeroResult test_name)
          | some doc => readParsed doc test_file test_name)
      = Except.ok (zeroResult test_name)
    rw [if_neg hs, hp]
  · show (if stripUnits (sanitize c) = [] then Except.ok (zeroResult test_name)
        else match parse (sanitize c) with
          | none => Except.ok (zeroResult test_name)
          | some doc => readParsed doc test_file test_name)
      = Except.ok (zeroResult test_name)
    rw [if_neg hs, hp]
    simp [readParsed, he]

/-- C1 witness: the missing-file case, the parse-failure case (on `<`, which
the oracle rejects), and the no-suite-element case all return the zero
Result. -/
theorem read_fail_soft_witness :
    read (fun _ => none) none "/d/s/f.xml" "t" = .ok (zeroResult "t")
    ∧ read (fun _ => none) (some [0x3c]) "/d/s/f.xml" "t" = .ok (zeroResult "t")
    ∧ read (fun _ => some (.elem "html" [] [])) (some [0x3c]) "/d/s/f.xml" "t"
        = .ok (zeroResult "t") :=
  ⟨read_fail_soft _ _ _ _ (Or.inl rfl),
   read_fail_soft _ _ _ _ (Or.inr (Or.inr (Or.inl ⟨[0x3c], rfl, by decide, rfl⟩))),
   read_fail_soft _ _ _ _
     (Or.inr (Or.inr (Or.inr ⟨[0x3c], .elem "html" [] [], rfl, by decide, rfl, rfl⟩)))⟩

/-- C2: contrary to the claim, missing or unparsable numeric attributes are
NOT silently defaulted to zero on the loading path.  A testcase without a
`time` attribute raises `ValueError` (`float('')`); a testsuite without count
attributes raises `TypeError` (`string.atoi` applied to the int `0` produced
by `v or 0`); an unparsable count raises `ValueError`.  Only a missing
*suite-level* `time` defaults to `0.0` (last conjunct), as its handling
checks for the empty attribute before calling `float`. -/
theorem missing_numeric_attributes_raise :
    readParsed
      (.elem "testsuite" [("errors", "0"), ("failures", "0"), ("tests", "1"), ("time", "1")]
        [.elem "testcase" [("name", "a"), ("classname", "c")] []])
      "/d/s/f.xml" "n" = .error .valueError
    ∧ readParsed (.elem "testsuite" [] []) "/d/s/f.xml" "n" = .error .typeError
    ∧ readParsed
        (.elem "testsuite" [("errors", "x"), ("failures", "0"), ("tests", "0"), ("time", "1")] [])
        "/d/s/f.xml" "n" = .error .valueError
    ∧ processSuite "p" "n" [("errors", "0"), ("failures", "0"), ("tests", "2")] []
        = .ok ⟨"n", 0, 0, 2, [], "", "", 0⟩ :=
  ⟨rfl, rfl, rfl, rfl⟩

/-! ## Decimal digit lemmas -/

theorem digitsVal_append_digit (xs : List Char) (c : Char) :
    digitsVal (xs ++ [c]) = digitsVal xs * 10 + (c.toNat - 48) := by
  unfold digitsVal
  rw [List.foldl_append]
  rfl

theorem natDigitsAux_spec :
    ∀ fuel n, 0 < fuel → n < 10 ^ fuel →
      digitsVal (natDigitsAux fuel n) = n
      ∧ natDigitsAux fuel n ≠ []
      ∧ ∀ c ∈ natDigitsAux fuel n, isDigitCh c = true := by
  intro fuel
  induction fuel with
  | zero => intro n h; omega
  | succ f ih =>
    intro n _ hn
    by_cases h10 : n < 10
    · unfold natDigitsAux
      rw [if_pos h10]
      refine ⟨?_, by simp, ?_⟩
      · interval_cases n <;> decide
      · intro c hc
        simp only [List.mem_singleton] at hc
        subst hc
        interval_cases n <;> decide
    · unfold natDigitsAux
      rw [if_neg h10]
      have hf : 0 < f := by
        rcases Nat.eq_zero_or_pos f with rfl | hf
        · simp at hn; omega
        · exact hf
      have hrec : n / 10 < 10 ^ f := by
        have hp : 10 ^ (f + 1) = 10 ^ f * 10 := pow_succ 10 f
        have := (Nat.div_lt_iff_lt_mul (by norm_num : 0 < 10)).mpr (hp ▸ hn)
        exact this
      obtain ⟨h1, h2, h3⟩ := ih (n / 10) hf hrec
      have hm : n % 10 < 10 := Nat.mod_lt _ (by norm_num)
      have hch : (Char.ofNat (48 + n % 10)).toNat = 48 + n % 10 ∧
          isDigitCh (Char.ofNat (48 + n % 10)) = true := by
        set m := n % 10 with hmdef
        clear_value m
        interval_cases m <;> exact ⟨by decide, by decide⟩
      refine ⟨?_, by simp, ?_⟩
      · rw [digitsVal_append_digit, h1, hch.1]
        omega
      · intro c hc
        rw [List.mem_append] at hc
        rcases hc with hc | hc
        · exact h3 c hc
        · simp only [List.mem_singleton] at hc
          subst hc
          exact hch.2

theorem natDigits_spec (n : Nat) :
    digitsVal (natDigits n) = n
    ∧ natDigits n ≠ []
    ∧ ∀ c ∈ natDigits n, isDigitCh c = true := by
  apply natDigitsAux_spec (n + 1) n (by omega)
  calc n < 10 ^ n := Nat.lt_pow_self (by norm_num) n
    _ ≤ 10 ^ (n + 1) := Nat.pow_le_pow_right (by norm_num) (Nat.le_succ n)

theorem digit_not_space (c : Char) (h : isDigitCh c = true) : isPySpace c = false := by
  have h' : 48 ≤ c.toNat ∧ c.toNat ≤ 57 := by simpa [isDigitCh] using h
  cases hsp : isPySpace c with
  | false => rfl
  | true =>
    exfalso
    simp only [isPySpace, Bool.or_eq_true, beq_iff_eq] at hsp
    rcases hsp with ((((hc | hc) | hc) | hc) | hc) | hc
    · subst hc; simp at h'
    · subst hc; simp at h'
    · subst hc; simp at h'
    · subst hc; simp at h'
    · omega
    · omega

theorem pyStripL_no_space (l : List Char) (h : ∀ c ∈ l, isPySpace c = false) :
    pyStripL l = l := by
  unfold pyStripL
  have h1 : l.dropWhile isPySpace = l := by
    cases l with
    | nil => rfl
    | cons c t =>
      rw [List.dropWhile_cons_of_neg]
      simp [h c (by simp)]
  rw [h1]
  have h2 : l.reverse.dropWhile isPySpace = l.reverse := by
    cases hrev : l.reverse with
    | nil => rfl
    | cons c t =>
      rw [List.dropWhile_cons_of_neg]
      have hc : c ∈ l := by
        rw [← List.mem_reverse, hrev]
        simp
      simp [h c hc]
  rw [h2, List.reverse_reverse]

theorem atoi_intStr (n : Int) : atoi (intStr n) = .ok n := by
  obtain ⟨hv, hne, hd⟩ := natDigits_spec n.natAbs
  have hnospace : ∀ c ∈ natDigits n.natAbs, isPySpace c = false :=
    fun c hc => digit_not_space c (hd c hc)
  have hall : (natDigits n.natAbs).all isDigitCh = true := List.all_eq_true.mpr hd
  by_cases hneg : n < 0
  · have hi : intStr n = ⟨'-' :: natDigits n.natAbs⟩ := by simp [intStr, hneg]
    rw [hi]
    have hstrip : pyStripL ('-' :: natDigits n.natAbs) = '-' :: natDigits n.natAbs := by
      apply pyStripL_no_space
      intro c hc
      rcases List.mem_cons.mp hc with rfl | hc
      · decide
      · exact hnospace c hc
    show atoi ⟨'-' :: natDigits n.natAbs⟩ = .ok n
    unfold atoi
    simp only [hstrip]
    simp only [if_pos rfl, hne, hall, and_true, ne_eq, not_false_iff, if_true]
    simp only [hv]
    congr 1
    omega
  · have hi : intStr n = ⟨natDigits n.natAbs⟩ := by simp [intStr, hneg]
    rw [hi]
    have hstrip : pyStripL (natDigits n.natAbs) = natDigits n.natAbs := by
      apply pyStripL_no_space
      exact hnospace
    unfold atoi
    simp only [hstrip]
    cases hds : natDigits n.natAbs with
    | nil => exact absurd hds hne
    | cons c0 cs =>
      have hc0 : isDigitCh c0 = true := by
        apply hd
        rw [hds]
        simp
      have hc0m : c0 ≠ '-' := by
        intro hc
        subst hc
        simp [isDigitCh] at hc0
      have hc0p : c0 ≠ '+' := by
        intro hc
        subst hc
        simp [isDigitCh] at hc0
      simp only [if_neg hc0m, if_neg hc0p]
      have : (c0 :: cs).all isDigitCh = true := by rw [← hds]; exact hall
      simp only [this, if_true, and_true]
      rw [← hds, hv]
      congr 1
      omega

/-! ## Claims about nested-suite handling -/

theorem intStr_ne_empty (n : Int) : intStr n ≠ "" := by
  obtain ⟨-, hne, -⟩ := natDigits_spec n.natAbs
  unfold intStr
  intro h
  have hdata : (if n < 0 then ['-'] else []) ++ natDigits n.natAbs = [] :=
    congrArg String.data h
  rw [List.append_eq_nil] at hdata
  exact hne hdata.2

/-- C7 counterexample: the skip check compares only the DIRECT `parentNode`
against the earlier suites, so a `testsuite` nested below an intermediate
non-suite element is folded again: the document
`<testsuite errors="1" ...><x><testsuite errors="1" .../></x></testsuite>`
yields `num_errors = 2` and `num_tests = 2`, double-counting the nested
suite, where the claim requires the nested suite to be skipped.  A directly
nested suite IS skipped (second conjunct). -/
theorem nested_suite_skip_counterexample :
    (readParsed
        (.elem "testsuite" [("errors", "1"), ("failures", "0"), ("tests", "1"), ("time", "0")]
          [.elem "x" []
            [.elem "testsuite"
              [("errors", "1"), ("failures", "0"), ("tests", "1"), ("time", "0")] []]])
        "/d/s/f.xml" "n").map (fun r => (r.num_errors, r.num_tests))
      = .ok (2, 2)
    ∧ (readParsed
        (.elem "testsuite" [("errors", "1"), ("failures", "0"), ("tests", "1"), ("time", "0")]
          [.elem "testsuite"
            [("errors", "1"), ("failures", "0"), ("tests", "1"), ("time", "0")] []])
        "/d/s/f.xml" "n").map (fun r => (r.num_errors, r.num_tests))
      = .ok (1, 1) := by
  constructor
  · rfl
  · rfl

/-- Evaluation of `processSuite` on attributes whose counts are stringified
ints and whose time attribute parses. -/
theorem processSuite_eval (pfx nm : String) (attrs : List (String × String))
    (children : List XNode) (e f t : Int) (v : ℚ)
    (he : getAttribute attrs "errors" = intStr e)
    (hf : getAttribute attrs "failures" = intStr f)
    (ht : getAttribute attrs "tests" = intStr t)
    (htime : parseFloat (getAttribute attrs "time") = some v)
    (htne : getAttribute attrs "time" ≠ "") :
    processSuite pfx nm attrs children
      = loadSuiteChildren pfx children ⟨nm, e, f, t, [], "", "", v⟩ := by
  unfold processSuite parseCount
  rw [he, hf, ht]
  rw [if_neg (intStr_ne_empty e), if_neg (intStr_ne_empty f), if_neg (intStr_ne_empty t)]
  simp only [atoi_intStr]
  rw [if_neg htne, htime]

/-- C7 amended: a nested suite is skipped exactly when its direct parent node
is an earlier suite in the document's suite list.  In particular a directly
nested `testsuite` never contributes its counts twice: for any counts, a
document whose outer suite directly contains an inner suite with the same
attributes folds the counts exactly once.  (The counterexample shows the
direct-parent check does not extend to suites nested below an intermediate
non-suite element, which the original claim asserted.) -/
theorem nested_suite_skip_amended (e f t : Int) (file nm : String) :
    (readParsed
        (.elem "testsuite"
          [("errors", intStr e), ("failures", intStr f), ("tests", intStr t), ("time", "0")]
          [.elem "testsuite"
            [("errors", intStr e), ("failures", intStr f), ("tests", intStr t), ("time", "0")]
            []])
        file nm).map (fun r => (r.num_errors, r.num_failures, r.num_tests))
      = .ok (e, f, t) := by
  obtain ⟨v, hv⟩ : ∃ v, parseFloat "0" = some v := ⟨_, rfl⟩
  have hps : processSuite (fileBase file) nm
      [("errors", intStr e), ("failures", intStr f), ("tests", intStr t), ("time", "0")]
      [.elem "testsuite"
        [("errors", intStr e), ("failures", intStr f), ("tests", intStr t), ("time", "0")] []]
      = .ok ⟨nm, e, f, t, [], "", "", v⟩ := by
    rw [processSuite_eval (fileBase file) nm
      [("errors", intStr e), ("failures", intStr f), ("tests", intStr t), ("time", "0")]
      [.elem "testsuite"
        [("errors", intStr e), ("failures", intStr f), ("tests", intStr t), ("time", "0")] []]
      e f t v rfl rfl rfl (by exact hv) (by exact (by decide : ("0" : String) ≠ ""))]
    rfl
  rw [show readParsed
      (.elem "testsuite"
        [("errors", intStr e), ("failures", intStr f), ("tests", intStr t), ("time", "0")]
        [.elem "testsuite"
          [("errors", intStr e), ("failures", intStr f), ("tests", intStr t), ("time", "0")]
          []])
      file nm
    = readSuitesGo (fileBase file) nm [] (zeroResult nm)
        [([], .elem "testsuite"
            [("errors", intStr e), ("failures", intStr f), ("tests", intStr t), ("time", "0")]
            [.elem "testsuite"
              [("errors", intStr e), ("failures", intStr f), ("tests", intStr t), ("time", "0")]
              []]),
         ([0], .elem "testsuite"
            [("errors", intStr e), ("failures", intStr f), ("tests", intStr t), ("time", "0")]
            [])] from rfl]
  rw [readSuitesGo]
  rw [if_neg (by simp)]
  simp only [hps]
  rw [readSuitesGo]
  rw [if_pos (by simp)]
  rw [readSuitesGo]
  simp [Result.accumulate, zeroResult]
  rfl

/-! ## Round-trip lemmas for the numeric models -/

theorem stripFacAux_spec (p : Nat) (hp : 2 ≤ p) :
    ∀ fuel n, n ≤ fuel → n = p ^ (stripFacAux p fuel n).1 * (stripFacAux p fuel n).2 := by
  intro fuel
  induction fuel with
  | zero =>
    intro n hn
    interval_cases n
    simp [stripFacAux]
  | succ f ih =>
    intro n hn
    by_cases hc : 2 ≤ p ∧ n ≠ 0 ∧ n % p = 0
    · unfold stripFacAux
      rw [if_pos hc]
      have hdvd : p ∣ n := Nat.dvd_of_mod_eq_zero hc.2.2
      have hlt : n / p < n := Nat.div_lt_self (Nat.pos_of_ne_zero hc.2.1) (by omega)
      have hrec := ih (n / p) (by omega)
      simp only
      rw [pow_succ]
      calc n = p * (n / p) := (Nat.mul_div_cancel' hdvd).symm
        _ = p * (p ^ (stripFacAux p f (n / p)).1 * (stripFacAux p f (n / p)).2) := by
            rw [← hrec]
        _ = p ^ (stripFacAux p f (n / p)).1 * p * (stripFacAux p f (n / p)).2 := by ring
    · unfold stripFacAux
      rw [if_neg hc]
      simp

theorem stripFac_spec (p n : Nat) (hp : 2 ≤ p) :
    n = p ^ (stripFac p n).1 * (stripFac p n).2 :=
  stripFacAux_spec p hp n n le_rfl

theorem decScale_dvd (d k : Nat) (h : decScale d = some k) : d ∣ 10 ^ k := by
  unfold decScale at h
  by_cases h5 : (stripFac 5 (stripFac 2 d).2).2 = 1
  · rw [if_pos h5] at h
    have hk : k = max (stripFac 2 d).1 (stripFac 5 (stripFac 2 d).2).1 :=
      (Option.some.injEq _ _ ▸ h).symm
    have h2 : d = 2 ^ (stripFac 2 d).1 * (stripFac 2 d).2 := stripFac_spec 2 d (by norm_num)
    have h5' : (stripFac 2 d).2
        = 5 ^ (stripFac 5 (stripFac 2 d).2).1 * (stripFac 5 (stripFac 2 d).2).2 :=
      stripFac_spec 5 _ (by norm_num)
    rw [h5, mul_one] at h5'
    set a := (stripFac 2 d).1 with ha
    set b := (stripFac 5 (stripFac 2 d).2).1 with hb
    have hd : d = 2 ^ a * 5 ^ b := by rw [h2, h5']
    subst hk
    rw [hd]
    have h1 : (2 : Nat) ^ a ∣ 2 ^ max a b := pow_dvd_pow 2 (le_max_left a b)
    have h2' : (5 : Nat) ^ b ∣ 5 ^ max a b := pow_dvd_pow 5 (le_max_right a b)
    calc (2 : Nat) ^ a * 5 ^ b ∣ 2 ^ max a b * 5 ^ max a b := mul_dvd_mul h1 h2'
      _ = 10 ^ max a b := by rw [← Nat.mul_pow]
  · rw [if_neg h5] at h
    cases h

theorem digitsVal_padZeros (k : Nat) (l : List Char) :
    digitsVal (padZeros k l) = digitsVal l := by
  unfold padZeros digitsVal
  rw [List.foldl_append]
  congr 1
  induction (k - l.length) with
  | zero => rfl
  | succ m ih => simpa [List.replicate_succ] using ih

theorem padZeros_length (k : Nat) (l : List Char) (h : l.length ≤ k) :
    (padZeros k l).length = k := by
  simp [padZeros]
  omega

theorem padZeros_digits (k : Nat) (l : List Char) (h : ∀ c ∈ l, isDigitCh c = true) :
    ∀ c ∈ padZeros k l, isDigitCh c = true := by
  intro c hc
  rcases List.mem_append.mp hc with hc | hc
  · have := List.eq_of_mem_replicate hc
    subst this
    decide
  · exact h c hc

theorem natDigitsAux_length :
    ∀ fuel n m, 0 < m → n < 10 ^ m → (natDigitsAux fuel n).length ≤ m := by
  intro fuel
  induction fuel with
  | zero => intro n m _ _; simp [natDigitsAux]
  | succ f ih =>
    intro n m hm hn
    by_cases h10 : n < 10
    · unfold natDigitsAux
      rw [if_pos h10]
      simpa using hm
    · unfold natDigitsAux
      rw [if_neg h10]
      have hm2 : 2 ≤ m := by
        by_contra hlt
        push_neg at hlt
        interval_cases m
        simp at hn
        omega
      have hrec : n / 10 < 10 ^ (m - 1) := by
        have hp : 10 ^ m = 10 ^ (m - 1) * 10 := by
          rw [← pow_succ]
          congr 1
          omega
        exact (Nat.div_lt_iff_lt_mul (by norm_num : 0 < 10)).mpr (hp ▸ hn)
      have := ih (n / 10) (m - 1) (by omega) hrec
      simp only [List.length_append, List.length_singleton]
      omega

theorem natDigits_length (n m : Nat) (hm : 0 < m) (hn : n < 10 ^ m) :
    (natDigits n).length ≤ m :=
  natDigitsAux_length (n + 1) n m hm hn

theorem takeWhile_append_stop (p : Char → Bool) (l1 : List Char) (c : Char) (l2 : List Char)
    (h1 : ∀ x ∈ l1, p x = true) (hc : p c = false) :
    (l1 ++ c :: l2).takeWhile p = l1 ∧ (l1 ++ c :: l2).dropWhile p = c :: l2 := by
  induction l1 with
  | nil =>
    simp [List.takeWhile_cons, List.dropWhile_cons, hc]
  | cons a t ih =>
    have ha : p a = true := h1 a (by simp)
    have ht : ∀ x ∈ t, p x = true := fun x hx => h1 x (by simp [hx])
    obtain ⟨ih1, ih2⟩ := ih ht
    constructor
    · simp [List.takeWhile_cons, ha, ih1]
    · simp [List.dropWhile_cons, ha, ih2]

theorem parseFloatCore_emitted (I K : Nat) (Fd : List Char)
    (hFd : ∀ c ∈ Fd, isDigitCh c = true) (hK : Fd.length ≤ K) :
    parseFloatCore (natDigits I ++ '.' :: padZeros K Fd)
      = some ((I : ℚ) + (digitsVal Fd : ℚ) / (10 : ℚ) ^ K) := by
  obtain ⟨hIv, hIne, hId⟩ := natDigits_spec I
  have hdot : isDigitCh '.' = false := by decide
  obtain ⟨htake, hdrop⟩ := takeWhile_append_stop isDigitCh (natDigits I) '.' (padZeros K Fd)
    hId hdot
  have hpadd : ∀ c ∈ padZeros K Fd, isDigitCh c = true := padZeros_digits K Fd hFd
  have htake2 : (padZeros K Fd).takeWhile isDigitCh = padZeros K Fd :=
    List.takeWhile_eq_self_iff.mpr hpadd
  have hdrop2 : (padZeros K Fd).dropWhile isDigitCh = [] :=
    List.dropWhile_eq_nil_iff.mpr hpadd
  have hlen : (padZeros K Fd).length = K := padZeros_length K Fd hK
  simp only [parseFloatCore, htake, hdrop, htake2, hdrop2]
  rw [if_neg (by simp [hIne])]
  simp only [parseExpPart]
  rw [hIv, digitsVal_padZeros, hlen]

theorem parseFloat_mantissa (I K : Nat) (Fd : List Char)
    (hFd : ∀ c ∈ Fd, isDigitCh c = true) (hK : Fd.length ≤ K) :
    parseFloat ⟨natDigits I ++ '.' :: padZeros K Fd⟩
      = some ((I : ℚ) + (digitsVal Fd : ℚ) / (10 : ℚ) ^ K)
    ∧ parseFloat ⟨'-' :: (natDigits I ++ '.' :: padZeros K Fd)⟩
      = some (-((I : ℚ) + (digitsVal Fd : ℚ) / (10 : ℚ) ^ K)) := by
  obtain ⟨hIv, hIne, hId⟩ := natDigits_spec I
  have hcore := parseFloatCore_emitted I K Fd hFd hK
  have hnos : ∀ c ∈ natDigits I ++ '.' :: padZeros K Fd, isPySpace c = false := by
    intro c hc
    rcases List.mem_append.mp hc with hc | hc
    · exact digit_not_space c (hId c hc)
    · rcases List.mem_cons.mp hc with rfl | hc
      · decide
      · exact digit_not_space c (padZeros_digits _ _ hFd c hc)
  have hstrip : pyStripL (natDigits I ++ '.' :: padZeros K Fd)
      = natDigits I ++ '.' :: padZeros K Fd := pyStripL_no_space _ hnos
  constructor
  · obtain ⟨c0, cs, hds⟩ : ∃ c0 cs, natDigits I = c0 :: cs := by
      cases hds : natDigits I with
      | nil => exact absurd hds hIne
      | cons a b => exact ⟨a, b, rfl⟩
    have hc0 : isDigitCh c0 = true := hId c0 (by rw [hds]; simp)
    have hc0m : ¬(c0 = '-') := by
      intro hcc
      subst hcc
      simp [isDigitCh] at hc0
    have hc0p : ¬(c0 = '+') := by
      intro hcc
      subst hcc
      simp [isDigitCh] at hc0
    show (match pyStripL (natDigits I ++ '.' :: padZeros K Fd) with
      | [] => none
      | c :: r =>
        if c = '-' then (parseFloatCore r).map (fun q => -q)
        else if c = '+' then parseFloatCore r
        else parseFloatCore (c :: r)) = some ((I : ℚ) + (digitsVal Fd : ℚ) / (10 : ℚ) ^ K)
    rw [hstrip, hds, List.cons_append]
    show (if c0 = '-' then (parseFloatCore (cs ++ '.' :: padZeros K Fd)).map (fun q => -q)
        else if c0 = '+' then parseFloatCore (cs ++ '.' :: padZeros K Fd)
        else parseFloatCore (c0 :: (cs ++ '.' :: padZeros K Fd)))
      = some ((I : ℚ) + (digitsVal Fd : ℚ) / (10 : ℚ) ^ K)
    rw [if_neg hc0m, if_neg hc0p, ← List.cons_append, ← hds, hcore]
  · have hstrip2 : pyStripL ('-' :: (natDigits I ++ '.' :: padZeros K Fd))
        = '-' :: (natDigits I ++ '.' :: padZeros K Fd) := by
      apply pyStripL_no_space
      intro c hc
      rcases List.mem_cons.mp hc with rfl | hc
      · decide
      · exact hnos c hc
    show (match pyStripL ('-' :: (natDigits I ++ '.' :: padZeros K Fd)) with
      | [] => none
      | c :: r =>
        if c = '-' then (parseFloatCore r).map (fun q => -q)
        else if c = '+' then parseFloatCore r
        else parseFloatCore (c :: r)) = some (-((I : ℚ) + (digitsVal Fd : ℚ) / (10 : ℚ) ^ K))
    rw [hstrip2]
    show (if ('-' : Char) = '-' then
        (parseFloatCore (natDigits I ++ '.' :: padZeros K Fd)).map (fun q => -q)
      else if ('-' : Char) = '+' then parseFloatCore (natDigits I ++ '.' :: padZeros K Fd)
      else parseFloatCore ('-' :: (natDigits I ++ '.' :: padZeros K Fd)))
      = some (-((I : ℚ) + (digitsVal Fd : ℚ) / (10 : ℚ) ^ K))
    rw [if_pos rfl, hcore, Option.map_some']

theorem parseFloat_floatStr (q : ℚ) (h : (decScale q.den).isSome = true) :
    parseFloat (floatStr q) = some q := by
  obtain ⟨k, hk⟩ : ∃ k, decScale q.den = some k := Option.isSome_iff_exists.mp h
  have hdvd : q.den ∣ 10 ^ k := decScale_dvd _ _ hk
  have hden : 0 < q.den := q.pos
  have hmul : q.num.natAbs * 10 ^ k / q.den * q.den = q.num.natAbs * 10 ^ k :=
    Nat.div_mul_cancel (Dvd.dvd.mul_left hdvd _)
  have hFlt : q.num.natAbs * 10 ^ k / q.den % 10 ^ k < 10 ^ k :=
    Nat.mod_lt _ (pow_pos (by norm_num) k)
  obtain ⟨hFv, hFne, hFdig⟩ := natDigits_spec (q.num.natAbs * 10 ^ k / q.den % 10 ^ k)
  have hlenF : (natDigits (q.num.natAbs * 10 ^ k / q.den % 10 ^ k)).length ≤ max k 1 := by
    rcases Nat.eq_zero_or_pos k with rfl | hkpos
    · have h0 : q.num.natAbs * 10 ^ 0 / q.den % 10 ^ 0 = 0 := by simp [Nat.mod_one]
      rw [h0]
      have h1 : natDigits 0 = ['0'] := by decide
      simp [h1]
    · calc (natDigits (q.num.natAbs * 10 ^ k / q.den % 10 ^ k)).length ≤ k :=
        natDigits_length _ k hkpos hFlt
        _ ≤ max k 1 := le_max_left k 1
  have habs : ((q.num.natAbs * 10 ^ k / q.den / 10 ^ k : Nat) : ℚ)
        + ((digitsVal (natDigits (q.num.natAbs * 10 ^ k / q.den % 10 ^ k))) : ℚ)
          / (10 : ℚ) ^ (max k 1)
      = (q.num.natAbs : ℚ) / (q.den : ℚ) := by
    rw [hFv]
    have hdq : ((q.den : ℚ)) ≠ 0 := by positivity
    rcases Nat.eq_zero_or_pos k with rfl | hkpos
    · have hden1 : q.den = 1 := Nat.dvd_one.mp (by simpa using hdvd)
      rw [hden1]
      simp [Nat.mod_one]
    · have hmaxk : max k 1 = k := by omega
      rw [hmaxk]
      have h10 : ((10 : ℚ) ^ k) ≠ 0 := by positivity
      have hdm : ((q.num.natAbs * 10 ^ k / q.den / 10 ^ k : Nat) : ℚ) * ((10 : ℚ) ^ k)
          + ((q.num.natAbs * 10 ^ k / q.den % 10 ^ k : Nat) : ℚ)
          = ((q.num.natAbs * 10 ^ k / q.den : Nat) : ℚ) := by
        have h' : q.num.natAbs * 10 ^ k / q.den / 10 ^ k * 10 ^ k
            + q.num.natAbs * 10 ^ k / q.den % 10 ^ k = q.num.natAbs * 10 ^ k / q.den := by
          rw [Nat.mul_comm]
          exact Nat.div_add_mod _ (10 ^ k)
        exact_mod_cast h'
      have hmulq : ((q.num.natAbs * 10 ^ k / q.den : Nat) : ℚ) * (q.den : ℚ)
          = (q.num.natAbs : ℚ) * ((10 : ℚ) ^ k) := by
        exact_mod_cast hmul
      have hsum : ((q.num.natAbs * 10 ^ k / q.den / 10 ^ k : Nat) : ℚ)
            + ((q.num.natAbs * 10 ^ k / q.den % 10 ^ k : Nat) : ℚ) / (10 : ℚ) ^ k
          = ((q.num.natAbs * 10 ^ k / q.den : Nat) : ℚ) / (10 : ℚ) ^ k := by
        field_simp
        linarith [hdm]
      rw [hsum, div_eq_div_iff h10 hdq]
      exact hmulq
  obtain ⟨hpos, hneg'⟩ := parseFloat_mantissa (q.num.natAbs * 10 ^ k / q.den / 10 ^ k)
    (max k 1) (natDigits (q.num.natAbs * 10 ^ k / q.den % 10 ^ k)) hFdig hlenF
  unfold floatStr
  rw [hk]
  by_cases hneg : q.num < 0
  · rw [if_pos hneg]
    show parseFloat ⟨'-' :: (natDigits (q.num.natAbs * 10 ^ k / q.den / 10 ^ k)
        ++ '.' :: padZeros (max k 1) (natDigits (q.num.natAbs * 10 ^ k / q.den % 10 ^ k)))⟩
      = some q
    rw [hneg', habs]
    have habsneg : (q.num.natAbs : ℚ) = -(q.num : ℚ) := by
      rw [Int.cast_natAbs, abs_of_neg hneg]
      push_cast
      ring
    rw [habsneg]
    rw [show -(-(q.num : ℚ) / (q.den : ℚ)) = (q.num : ℚ) / (q.den : ℚ) by ring]
    rw [Rat.num_div_den]
  · rw [if_neg hneg]
    show parseFloat ⟨natDigits (q.num.natAbs * 10 ^ k / q.den / 10 ^ k)
        ++ '.' :: padZeros (max k 1) (natDigits (q.num.natAbs * 10 ^ k / q.den % 10 ^ k))⟩
      = some q
    rw [hpos, habs]
    have habspos : (q.num.natAbs : ℚ) = (q.num : ℚ) := by
      rw [Int.cast_natAbs, abs_of_nonneg (not_lt.mp hneg)]
    rw [habspos, Rat.num_div_den]

theorem floatStr_ne_empty (q : ℚ) (h : (decScale q.den).isSome = true) :
    floatStr q ≠ "" := by
  obtain ⟨k, hk⟩ : ∃ k, decScale q.den = some k := Option.isSome_iff_exists.mp h
  obtain ⟨-, hne, -⟩ := natDigits_spec (q.num.natAbs * 10 ^ k / q.den / 10 ^ k)
  unfold floatStr
  rw [hk]
  intro hc
  have hdata := congrArg String.data hc
  rcases List.append_eq_nil.mp hdata with ⟨-, h2⟩
  simp at h2

/-! ## Round-trip lemmas: the serialized tree seen by the loader -/

theorem elemsByTagList_all_nil (tg : String) (l : List XNode)
    (h : ∀ n ∈ l, elemsByTag tg n = []) : ∀ i, elemsByTagList tg i l = [] := by
  induction l with
  | nil => intro i; rfl
  | cons n rest ih =>
    intro i
    unfold elemsByTagList
    rw [h n (by simp), List.map_nil, List.nil_append]
    exact ih (fun x hx => h x (by simp [hx])) (i + 1)

theorem elemsByTag_failureXml (f : TestInfo) :
    elemsByTag "testsuite" (TestInfo.failureXml f) = [] := rfl

theorem elemsByTag_errorXml (e : TestInfo) :
    elemsByTag "testsuite" (TestInfo.errorXml e) = [] := rfl

theorem elemsByTag_tcXml (tc : TestCaseResult) :
    elemsByTag "testsuite" (TestCaseResult.xmlTree tc) = [] := by
  unfold TestCaseResult.xmlTree elemsByTag
  rw [if_neg (by decide)]
  rw [List.nil_append]
  apply elemsByTagList_all_nil
  intro n hn
  rcases List.mem_append.mp hn with hn | hn
  · rcases List.mem_map.mp hn with ⟨f, -, rfl⟩
    exact elemsByTag_failureXml f
  · rcases List.mem_map.mp hn with ⟨e, -, rfl⟩
    exact elemsByTag_errorXml e

theorem elemsByTag_xmlTree (R : Result) :
    elemsByTag "testsuite" (Result.xmlTree R) = [([], Result.xmlTree R)] := by
  conv_lhs => unfold Result.xmlTree elemsByTag
  rw [if_pos (by decide)]
  have hnil : elemsByTagList "testsuite" 0
      (R.test_case_results.map TestCaseResult.xmlTree ++
        [.elem "system-out" [] [.cdata R.system_out],
         .elem "system-err" [] [.cdata R.system_err]]) = [] := by
    apply elemsByTagList_all_nil
    intro n hn
    rcases List.mem_append.mp hn with hn | hn
    · rcases List.mem_map.mp hn with ⟨tc, -, rfl⟩
      exact elemsByTag_tcXml tc
    · rcases List.mem_cons.mp hn with rfl | hn
      · rfl
      · rcases List.mem_cons.mp hn with rfl | hn
        · rfl
        · cases hn
  rw [hnil, List.append_nil]
  rfl

theorem pyOr_empty_right (a : String) : pyOr a "" = a := by
  unfold pyOr
  split_ifs with h
  · exact h.symm
  · rfl

theorem elemText_cdata (t : String) : elemText [XNode.cdata t] = pyStrip t := rfl

theorem loadCaseChildren_cons_elem (acc : List TestInfo × List TestInfo) (tag : String)
    (attrs : List (String × String)) (cs : List XNode) (rest : List XNode) :
    loadCaseChildren acc (.elem tag attrs cs :: rest)
      = if tag == "failure" then
          loadCaseChildren
            (acc.1 ++ [⟨getAttribute attrs "type",
              pyOr (elemText cs) (getAttribute attrs "message")⟩], acc.2) rest
        else if tag == "error" then
          loadCaseChildren
            (acc.1, acc.2 ++ [⟨getAttribute attrs "type",
              pyOr (elemText cs) (getAttribute attrs "message")⟩]) rest
        else loadCaseChildren acc rest := rfl

theorem loadCaseChildren_eval (es fs accf acce : List TestInfo) :
    loadCaseChildren (accf, acce) (fs.map TestInfo.failureXml ++ es.map TestInfo.errorXml)
      = (accf ++ fs.map (fun f => ⟨f.type, pyStrip f.text⟩),
         acce ++ es.map (fun e => ⟨e.type, pyStrip e.text⟩)) := by
  induction fs generalizing accf with
  | nil =>
    induction es generalizing acce with
    | nil => simp [loadCaseChildren]
    | cons e rest ihe =>
      simp only [List.map_nil, List.nil_append, List.map_cons] at *
      rw [show TestInfo.errorXml e
        = XNode.elem "error" [("type", e.type)] [XNode.cdata e.text] from rfl]
      rw [loadCaseChildren_cons_elem]
      rw [if_neg (by decide), if_pos (by decide)]
      rw [show getAttribute [("type", e.type)] "message" = "" from rfl]
      rw [pyOr_empty_right, elemText_cdata]
      rw [show getAttribute [("type", e.type)] "type" = e.type from rfl]
      dsimp only
      rw [ihe (acce ++ [(⟨e.type, pyStrip e.text⟩ : TestInfo)])]
      simp
  | cons f rest ihf =>
    simp only [List.map_cons, List.cons_append]
    rw [show TestInfo.failureXml f
      = XNode.elem "failure" [("type", f.type)] [XNode.cdata f.text] from rfl]
    rw [loadCaseChildren_cons_elem]
    rw [if_pos (by decide)]
    rw [show getAttribute [("type", f.type)] "message" = "" from rfl]
    rw [pyOr_empty_right, elemText_cdata]
    rw [show getAttribute [("type", f.type)] "type" = f.type from rfl]
    dsimp only
    rw [ihf (accf ++ [(⟨f.type, pyStrip f.text⟩ : TestInfo)])]
    simp

theorem loadSuiteNode_tcXml (pfx : String) (tc : TestCaseResult) (R : Result)
    (h : parseFloat (floatStr tc.time) = some tc.time) :
    loadSuiteNode pfx (TestCaseResult.xmlTree tc) R
      = .ok (R.add_test_case_result (reloadCase pfx R.name tc)) := by
  rw [show TestCaseResult.xmlTree tc
    = XNode.elem "testcase"
        [("classname", tc.classname), ("name", tc.name), ("time", floatStr tc.time)]
        (tc.failures.map TestInfo.failureXml ++ tc.errors.map TestInfo.errorXml) from rfl]
  rw [show ∀ attrs children, loadSuiteNode pfx (XNode.elem "testcase" attrs children) R
      = (match parseFloat (getAttribute attrs "time") with
        | none => Except.error PyErr.valueError
        | some t =>
          Except.ok (R.add_test_case_result
            ⟨pfx ++ "/" ++ pyOr (getAttribute attrs "name") "unknown",
             (loadCaseChildren ([], []) children).1,
             (loadCaseChildren ([], []) children).2,
             t,
             normalizeClassname R.name (pyOr (getAttribute attrs "classname") "unknown")⟩)
        ) from fun attrs children => rfl]
  rw [show getAttribute
    [("classname", tc.classname), ("name", tc.name), ("time", floatStr tc.time)] "time"
    = floatStr tc.time from rfl]
  rw [h]
  rw [loadCaseChildren_eval tc.errors tc.failures [] []]
  rfl

theorem loadSuiteChildren_cons (pfx : String) (n : XNode) (rest : List XNode) (R : Result) :
    loadSuiteChildren pfx (n :: rest) R
      = match loadSuiteNode pfx n R with
        | .error e => .error e
        | .ok result2 => loadSuiteChildren pfx rest result2 := rfl

theorem loadSuiteChildren_tcs (pfx : String) (tcs : List TestCaseResult) (rest : List XNode)
    (htime : ∀ tc ∈ tcs, parseFloat (floatStr tc.time) = some tc.time) :
    ∀ R : Result, loadSuiteChildren pfx (tcs.map TestCaseResult.xmlTree ++ rest) R
      = loadSuiteChildren pfx rest
          { R with test_case_results :=
              R.test_case_results ++ tcs.map (reloadCase pfx R.name) } := by
  induction tcs with
  | nil =>
    intro R
    simp
  | cons tc tcs ih =>
    intro R
    simp only [List.map_cons, List.cons_append]
    rw [loadSuiteChildren_cons,
      loadSuiteNode_tcXml pfx tc R (htime tc (by simp))]
    rw [show (match (Except.ok (R.add_test_case_result (reloadCase pfx R.name tc)) :
        Except PyErr Result) with
      | .error e => .error e
      | .ok result2 => loadSuiteChildren pfx (tcs.map TestCaseResult.xmlTree ++ rest) result2)
      = loadSuiteChildren pfx (tcs.map TestCaseResult.xmlTree ++ rest)
          (R.add_test_case_result (reloadCase pfx R.name tc)) from rfl]
    rw [ih (fun x hx => htime x (by simp [hx]))]
    congr 1
    unfold Result.add_test_case_result reloadCase
    simp

theorem loadSuiteNode_sysout (pfx so : String) (R : Result) :
    loadSuiteNode pfx (.elem "system-out" [] [.cdata so]) R
      = .ok { R with system_out :=
          if elemText [XNode.cdata so] ≠ "" then
            R.system_out ++ "[" ++ pfx ++ "] stdout" ++ dashes (71 - pfx.length)
              ++ "\n" ++ elemText [XNode.cdata so]
          else R.system_out } := by
  rw [show loadSuiteNode pfx (.elem "system-out" [] [.cdata so]) R
    = .ok (if elemText [XNode.cdata so] ≠ "" then
        { R with system_out :=
            R.system_out ++ "[" ++ pfx ++ "] stdout" ++ dashes (71 - pfx.length)
              ++ "\n" ++ elemText [XNode.cdata so] }
      else R) from rfl]
  split_ifs with h
  · rfl
  · rfl

theorem loadSuiteNode_syserr (pfx se : String) (R : Result) :
    loadSuiteNode pfx (.elem "system-err" [] [.cdata se]) R
      = .ok { R with system_err :=
          if elemText [XNode.cdata se] ≠ "" then
            R.system_err ++ "[" ++ pfx ++ "] stderr" ++ dashes (71 - pfx.length)
              ++ "\n" ++ elemText [XNode.cdata se]
          else R.system_err } := by
  rw [show loadSuiteNode pfx (.elem "system-err" [] [.cdata se]) R
    = .ok (if elemText [XNode.cdata se] ≠ "" then
        { R with system_err :=
            R.system_err ++ "[" ++ pfx ++ "] stderr" ++ dashes (71 - pfx.length)
              ++ "\n" ++ elemText [XNode.cdata se] }
      else R) from rfl]
  split_ifs with h
  · rfl
  · rfl

theorem loadSuiteChildren_cons_ok (pfx : String) (n : XNode) (rest : List XNode)
    (R X : Result) (h : loadSuiteNode pfx n R = .ok X) :
    loadSuiteChildren pfx (n :: rest) R = loadSuiteChildren pfx rest X := by
  rw [loadSuiteChildren_cons, h]

theorem readSuitesGo_singleton_elem (pfxa tname : String) (Z : Result) (tag : String)
    (attrs : List (String × String)) (children : List XNode) (res : Result)
    (h : processSuite pfxa tname attrs children = .ok res) :
    readSuitesGo pfxa tname [] Z [([], XNode.elem tag attrs children)]
      = .ok (Z.accumulate res) := by
  rw [readSuitesGo]
  rw [if_neg (by simp)]
  show (match processSuite pfxa tname attrs children with
    | Except.error e => (Except.error e : Except PyErr Result)
    | Except.ok result => readSuitesGo pfxa tname ([] ++ [[]]) (Z.accumulate result) [])
    = Except.ok (Z.accumulate res)
  rw [h]
  rfl

theorem loadSuiteChildren_sys (pfx so se : String) (S : Result) :
    ∃ out err,
      loadSuiteChildren pfx
        [.elem "system-out" [] [.cdata so], .elem "system-err" [] [.cdata se]] S
      = .ok ⟨S.name, S.num_errors, S.num_failures, S.num_tests, S.test_case_results,
          out, err, S.time⟩ := by
  refine ⟨(if elemText [XNode.cdata so] ≠ "" then
      S.system_out ++ "[" ++ pfx ++ "] stdout" ++ dashes (71 - pfx.length)
        ++ "\n" ++ elemText [XNode.cdata so] else S.system_out),
    (if elemText [XNode.cdata se] ≠ "" then
      S.system_err ++ "[" ++ pfx ++ "] stderr" ++ dashes (71 - pfx.length)
        ++ "\n" ++ elemText [XNode.cdata se] else S.system_err), ?_⟩
  rw [loadSuiteChildren_cons_ok pfx _ _ S _ (loadSuiteNode_sysout pfx so S)]
  rw [loadSuiteChildren_cons_ok pfx _ _ _ _ (loadSuiteNode_syserr pfx se _)]
  rfl

/-- C5 amended: serializing a Result and re-parsing the document through the
suite-loader path yields a Result with the same `num_tests`, `num_errors` and
`num_failures`, whose `(classname, name, passed)` tuples are those of the
original transformed by the loader's renaming: each case name gains the
file-derived prefix (`<dir>.<file>/<name>`, with empty names replaced by
`unknown`), and each classname is re-normalized against the aggregate name.
The original claim's "same set of (classname, name, passed) tuples" fails
because of exactly this renaming (see the counterexample).  The time
hypotheses say every time value is decimal-representable, which holds for
every exact IEEE float value. -/
theorem serialize_reparse_roundtrip (R : Result) (file tname : String)
    (ht : (decScale R.time.den).isSome = true)
    (htc : ∀ tc ∈ R.test_case_results, (decScale tc.time.den).isSome = true) :
    ∃ rp, readParsed (Result.xmlTree R) file tname = .ok rp
      ∧ rp.name = tname
      ∧ rp.num_tests = R.num_tests
      ∧ rp.num_errors = R.num_errors
      ∧ rp.num_failures = R.num_failures
      ∧ rp.test_case_results.map (fun tc => (tc.classname, tc.name, tc.passed))
          = R.test_case_results.map (fun tc =>
              (normalizeClassname tname (pyOr tc.classname "unknown"),
               fileBase file ++ "/" ++ pyOr tc.name "unknown", tc.passed)) := by
  have htime : ∀ tc ∈ R.test_case_results, parseFloat (floatStr tc.time) = some tc.time :=
    fun tc hmem => parseFloat_floatStr tc.time (htc tc hmem)
  have hps : processSuite (fileBase file) tname
      [("tests", intStr R.num_tests), ("failures", intStr R.num_failures),
       ("time", floatStr R.time), ("errors", intStr R.num_errors), ("name", R.name)]
      (R.test_case_results.map TestCaseResult.xmlTree ++
        [.elem "system-out" [] [.cdata R.system_out],
         .elem "system-err" [] [.cdata R.system_err]])
      = loadSuiteChildren (fileBase file)
          (R.test_case_results.map TestCaseResult.xmlTree ++
            [.elem "system-out" [] [.cdata R.system_out],
             .elem "system-err" [] [.cdata R.system_err]])
          ⟨tname, R.num_errors, R.num_failures, R.num_tests, [], "", "", R.time⟩ :=
    processSuite_eval _ _ _ _ R.num_errors R.num_failures R.num_tests R.time rfl rfl rfl
      (by exact parseFloat_floatStr R.time ht) (by exact floatStr_ne_empty R.time ht)
  have hload := loadSuiteChildren_tcs (fileBase file) R.test_case_results
      [.elem "system-out" [] [.cdata R.system_out],
       .elem "system-err" [] [.cdata R.system_err]]
      htime ⟨tname, R.num_errors, R.num_failures, R.num_tests, [], "", "", R.time⟩
  obtain ⟨out, err, hsys⟩ := loadSuiteChildren_sys (fileBase file) R.system_out R.system_err
    { (⟨tname, R.num_errors, R.num_failures, R.num_tests, [], "", "", R.time⟩ : Result) with
      test_case_results :=
        ([] : List TestCaseResult) ++ R.test_case_results.map (reloadCase (fileBase file) tname) }
  have hall : processSuite (fileBase file) tname
      [("tests", intStr R.num_tests), ("failures", intStr R.num_failures),
       ("time", floatStr R.time), ("errors", intStr R.num_errors), ("name", R.name)]
      (R.test_case_results.map TestCaseResult.xmlTree ++
        [.elem "system-out" [] [.cdata R.system_out],
         .elem "system-err" [] [.cdata R.system_err]])
      = .ok ⟨tname, R.num_errors, R.num_failures, R.num_tests,
          ([] : List TestCaseResult) ++ R.test_case_results.map (reloadCase (fileBase file) tname),
          out, err, R.time⟩ :=
    (hps.trans (hload.trans hsys))
  have h0 : readParsed (Result.xmlTree R) file tname
      = readSuitesGo (fileBase file) tname [] (zeroResult tname) [([], Result.xmlTree R)] := by
    unfold readParsed
    rw [elemsByTag_xmlTree]
    rfl
  have h1 : readSuitesGo (fileBase file) tname [] (zeroResult tname) [([], Result.xmlTree R)]
      = .ok ((zeroResult tname).accumulate
          ⟨tname, R.num_errors, R.num_failures, R.num_tests,
           ([] : List TestCaseResult)
             ++ R.test_case_results.map (reloadCase (fileBase file) tname),
           out, err, R.time⟩) :=
    readSuitesGo_singleton_elem (fileBase file) tname (zeroResult tname) "testsuite" _ _ _ hall
  refine ⟨_, h0.trans h1, ?_, ?_, ?_, ?_, ?_⟩
  · rfl
  · simp [Result.accumulate, zeroResult]
  · simp [Result.accumulate, zeroResult]
  · simp [Result.accumulate, zeroResult]
  · show (((zeroResult tname).accumulate _).test_case_results).map _ = _
    rw [show ((zeroResult tname).accumulate
        ⟨tname, R.num_errors, R.num_failures, R.num_tests,
         ([] : List TestCaseResult)
           ++ R.test_case_results.map (reloadCase (fileBase file) tname),
         out, err, R.time⟩).test_case_results
      = R.test_case_results.map (reloadCase (fileBase file) tname) by
        simp [Result.accumulate, zeroResult]]
    rw [List.map_map]
    apply List.map_congr_left
    intro tc _
    show ((reloadCase (fileBase file) tname tc).classname,
      (reloadCase (fileBase file) tname tc).name,
      (reloadCase (fileBase file) tname tc).passed) = _
    unfold reloadCase TestCaseResult.passed
    cases tc.errors <;> cases tc.failures <;> rfl

/-- C5 amended, witness: a concrete Result with one failed case round-trips to
the renamed tuple list. -/
theorem serialize_reparse_roundtrip_witness :
    (decScale (0 : ℚ).den).isSome = true
    ∧ ∃ rp, readParsed
          (Result.xmlTree ⟨"n", 1, 0, 1, [⟨"a", [⟨"T", "m"⟩], [], 0, "n.c"⟩], "", "", 0⟩)
          "/d/sub/TEST-x.xml" "n" = .ok rp
        ∧ rp.name = "n"
        ∧ rp.num_tests = 1
        ∧ rp.num_errors = 1
        ∧ rp.num_failures = 0
        ∧ rp.test_case_results.map (fun tc => (tc.classname, tc.name, tc.passed))
            = [("n.c", "sub.x/a", false)] := by
  obtain ⟨rp, h1, h2, h3, h4, h5, h6⟩ := serialize_reparse_roundtrip
    ⟨"n", 1, 0, 1, [⟨"a", [⟨"T", "m"⟩], [], 0, "n.c"⟩], "", "", 0⟩
    "/d/sub/TEST-x.xml" "n" (by decide)
    (by
      intro tc htc
      simp only [List.mem_singleton] at htc
      subst htc
      decide)
  exact ⟨by decide, rp, h1, h2, h3, h4, h5, h6.trans (by decide)⟩

/-- C5 counterexample: re-parsing a serialized Result does NOT recover the
same `(classname, name, passed)` tuples — the loader prefixes every case name
with the file-derived prefix, so the case named `a` comes back as
`sub.x/a`. -/
theorem roundtrip_counterexample :
    (readParsed (Result.xmlTree ⟨"n", 0, 0, 1, [⟨"a", [], [], 0, "n.c"⟩], "", "", 0⟩)
        "/d/sub/TEST-x.xml" "n").map
      (fun r => r.test_case_results.map (fun tc => (tc.classname, tc.name, tc.passed)))
      = .ok [("n.c", "sub.x/a", true)]
    ∧ ("sub.x/a" : String) ≠ "a" := by
  constructor
  · rfl
  · decide
